import Mathlib

/-!
Verification of the boot-go core against its specification.

Go strings are modelled as lists of characters (`Str`), Go slices as lists,
Go maps as association lists, and pointer identity of heap objects by keys
(registry entries) or numeric ids (bus listeners).  Machine details that the
verified claims do not touch (locks, goroutines, loggers) are omitted; all
observable control flow of the embedded functions follows the source.
-/

namespace Boot

/-- Go strings are modelled as lists of characters. -/
abbrev Str := List Char

/-- Convert a Lean string literal into the model representation. -/
def str (s : String) : Str := s.toList

/-- The single-quote character, written via its code point. -/
def quoteCh : Char := Char.ofNat 39

/-- Boolean test that `p` is a leading segment of `s`. -/
def leadSeg : Str → Str → Bool
  | [], _ => true
  | _ :: _, [] => false
  | a :: as, b :: bs => a = b && leadSeg as bs

/-- One step of Go `strings.Split` with a nonempty separator: the segment
before the leftmost separator occurrence and the remainder after it. -/
def findSep (sep : Str) : Str → Option (Str × Str)
  | [] => none
  | c :: rest =>
    if leadSeg sep (c :: rest) then some ([], (c :: rest).drop sep.length)
    else
      match findSep sep rest with
      | some (pre, post) => some (c :: pre, post)
      | none => none

/-- Go `strings.Split` with a nonempty separator, by fuel on the remaining
length (the fuel `s.length + 1` always suffices). -/
def goSplitNE (sep : Str) : Nat → Str → List Str
  | 0, s => [s]
  | fuel + 1, s =>
    match findSep sep s with
    | none => [s]
    | some (pre, post) => pre :: goSplitNE sep fuel post

/-- Model of Go `strings.Split`.  An empty separator explodes the string into
its characters, and `strings.Split("", "")` is the empty slice. -/
def goSplit (s sep : Str) : List Str :=
  if sep = [] then s.map (fun c => [c])
  else goSplitNE sep (s.length + 1) s

/-- Model of Go `strings.Join`. -/
def goJoin : List Str → Str → Str
  | [], _ => []
  | [x], _ => x
  | x :: y :: xs, sep => x ++ sep ++ goJoin (y :: xs) sep

/-- The quote count used by `Split` (part_006): the number of separator-free
quote occurrences in a token, as Go computes it, `len(strings.Split(token,
quote)) - 1`.  It is `-1` exactly when both the token and the quote are
empty. -/
def quoteCount (quote token : Str) : Int :=
  ((goSplit token quote).length : Int) - 1

/-- One iteration of the token-grouping loop in `Split` (part_006 lines
63-88).  The accumulator carries `(result, summarizedToken, summarizing)`. -/
def splitStep (sep quote : Str) (acc : List Str × Str × Bool) (token : Str) :
    List Str × Str × Bool :=
  let result := acc.1
  let summarizedToken := acc.2.1
  let summarizing := acc.2.2
  let count := quoteCount quote token
  let next :=
    if count = 1 ∨ count.tmod 2 ≠ 0 then
      if summarizing then (summarizedToken ++ sep ++ token, false)
      else (token, true)
    else
      if summarizing then (summarizedToken ++ sep ++ token, true)
      else (token, false)
  if next.2 then (result, next.1, true) else (result ++ [next.1], [], false)

/-- The grouping loop of `Split` over all tokens. -/
def splitLoop (sep quote : Str) (tokens : List Str) : List Str × Str × Bool :=
  tokens.foldl (splitStep sep quote) ([], [], false)

/-- Model of `Split` (part_006 lines 58-94): splits on `sep` while grouping
tokens that fall inside quoted spans; `([], false)` models Go's
`(nil, false)`. -/
def Split (s sep quote : Str) : List Str × Bool :=
  let st := splitLoop sep quote (goSplit s sep)
  if st.2.1 = [] then (st.1, true) else ([], false)

/-- The string represented by a loop state: the joined groups plus the pending
group when one is open. -/
def joinState (sep : Str) : List Str × Str × Bool → Str
  | (res, st, true) => goJoin (res ++ [st]) sep
  | (res, _, false) => goJoin res sep

/-- Invariant of the grouping loop of `Split` relating a loop state to the
list `P` of tokens already consumed. -/
def SplitInv (sep : Str) (P : List Str) (acc : List Str × Str × Bool) : Prop :=
  (acc.2.2 = false → acc.2.1 = []) ∧
  (acc.2.2 = true → acc.2.1 ≠ []) ∧
  joinState sep acc = goJoin P sep ∧
  (P = [] ↔ acc.1 = [] ∧ acc.2.2 = false)

/-! Event bus (part_001).  Events, handlers and listeners.  Pointer identity
of `*busListener` allocations is modelled by a numeric id issued at
subscription time. -/

/-- A non-function Go value used as an event: its reflected package path and
type name plus a payload distinguishing instances of the same type. -/
structure GoEvent where
  pkgPath : String
  typeName : String
  payload : Nat
deriving DecidableEq

/-- `QualifiedName` (part_006 lines 36-54) on a non-pointer, non-function
value: the package path (followed by a slash when nonempty) plus the type
name. -/
def qualifiedNameOfEvent (e : GoEvent) : String :=
  if e.pkgPath = "" then e.typeName else e.pkgPath ++ "/" ++ e.typeName

/-- A value recovered from a panic: Go switches on whether it is an `error`,
a `string`, or anything else. -/
inductive PanicVal where
  | errVal (msg : String)
  | strVal (msg : String)
  | otherVal (qualifiedName : String)
deriving DecidableEq

/-- The observable outcome of invoking a handler on an event. -/
inductive HandlerOutcome where
  | ok
  | err (msg : String)
  | panics (pv : PanicVal)

/-- The shape of a Go handler function's return values. -/
inductive RetShape where
  | noRet
  | errRet
  | nonErrRet (typeName : String)
  | multiRet (n : Nat)
deriving DecidableEq

/-- A Go value passed to `Subscribe`/`Unsubscribe`: `nil`, a non-function
value, or a function with a reflected symbol name, argument types (package
path and type name per argument), return shape and behaviour. -/
inductive GoHandler where
  | nilHandler
  | nonFunc (qualifiedName : String) (kindName : String)
  | func (symbolName : String) (argTypes : List (String × String)) (ret : RetShape)
      (behavior : GoEvent → HandlerOutcome)

/-- `QualifiedName` on a handler argument: function values are named via
`runtime.FuncForPC`, i.e. by their symbol, not by their type. -/
def handlerQualifiedName : GoHandler → String
  | .nilHandler => "nil"
  | .nonFunc qn _ => qn
  | .func sym _ _ _ => sym

/-- `busListener` (part_001 lines 105-110): the stored subscription. -/
structure BusListener where
  id : Nat
  qualifiedName : String
  eventTypeName : String
  hasErrorReturn : Bool
  behavior : GoEvent → HandlerOutcome

/-- The errors of the event bus, in correspondence with the `errors.New`
and `fmt.Errorf` sites of part_001. -/
inductive BusError where
  | handlerMustNotBeNil
  | eventMustNotBeNil
  | unknownEventType
  | handlerNotFound
  | notAFunction (kindName : String)
  | badArgCount (n : Nat)
  | nonErrorReturn
  | tooManyReturns (n : Nat)
  | invalidHandler (qualifiedName : String) (cause : BusError)
  | eventTypeNotExist (qualifiedName : String)
  | publishFailure (entries : List (GoEvent × Nat × String))
  | recoveredPanic (msg : String)
  | unsupportedPanicType (qualifiedName : String)
deriving DecidableEq

/-- `newBusListener` (part_001 lines 114-150): validates a handler and
derives the routing key from its single argument's type. -/
def newBusListener (id : Nat) (h : GoHandler) : Except BusError BusListener :=
  match h with
  | .nilHandler => .error .handlerMustNotBeNil
  | .nonFunc _ kindName => .error (.notAFunction kindName)
  | .func symbolName argTypes ret behavior =>
    match argTypes with
    | [(path, name)] =>
      match ret with
      | .nonErrRet _ => .error .nonErrorReturn
      | .multiRet n => .error (.tooManyReturns n)
      | r =>
        if path.length = 0 ∧ name.length = 0 then .error .unknownEventType
        else
          .ok { id := id, qualifiedName := symbolName,
                eventTypeName := path ++ "/" ++ name,
                hasErrorReturn := match r with | .errRet => true | _ => false,
                behavior := behavior }
    | _ => .error (.badArgCount argTypes.length)

/-- The `eventBus` state (part_001 lines 34-40): the handler map, the started
flag and the pre-activation queue.  `nextId` models the allocator issuing
distinct `*busListener` pointers. -/
structure EventBus where
  handlers : List (String × List BusListener)
  isStarted : Bool
  queue : List GoEvent
  nextId : Nat

/-- Association-list lookup modelling Go map indexing with comma-ok. -/
def lookupHandlers : List (String × List BusListener) → String → Option (List BusListener)
  | [], _ => none
  | (k, ls) :: rest, key => if k = key then some ls else lookupHandlers rest key

/-- Go map indexing without comma-ok: missing keys give the zero value. -/
def handlersAt (hs : List (String × List BusListener)) (key : String) : List BusListener :=
  (lookupHandlers hs key).getD []

/-- Go map assignment: replace the entry for `key`, or add it. -/
def setHandlers : List (String × List BusListener) → String → List BusListener →
    List (String × List BusListener)
  | [], key, ls => [(key, ls)]
  | (k, old) :: rest, key, ls =>
    if k = key then (k, ls) :: rest else (k, old) :: setHandlers rest key ls

/-- `eventBus.Subscribe` (part_001 lines 163-175). -/
def Subscribe (bus : EventBus) (h : GoHandler) : EventBus × Option BusError :=
  match newBusListener bus.nextId h with
  | .error e => (bus, some (.invalidHandler (handlerQualifiedName h) e))
  | .ok l =>
    ({ bus with
        handlers := setHandlers bus.handlers l.eventTypeName
          (handlersAt bus.handlers l.eventTypeName ++ [l]),
        nextId := bus.nextId + 1 }, none)

/-- A value passed to `HasHandler`: an event value or a handler function
(with the package path and type name of its single argument). -/
inductive GoValue where
  | ev (e : GoEvent)
  | fn (symbolName : String) (argPkgPath : String) (argTypeName : String)

/-- `QualifiedName` on a `HasHandler` argument. -/
def goValueQualifiedName : GoValue → String
  | .ev e => qualifiedNameOfEvent e
  | .fn sym _ _ => sym

/-- The routing key the bus derives from a value's runtime type: for an event
the key `Publish` dispatches on, for a handler function the key its
subscription is stored under by `newBusListener` (argument type path plus
slash plus name). -/
def routingKeyOf : GoValue → String
  | .ev e => qualifiedNameOfEvent e
  | .fn _ p n => p ++ "/" ++ n

/-- `eventBus.HasHandler` (part_001 lines 178-187). -/
def HasHandler (bus : EventBus) (v : GoValue) : Bool :=
  match lookupHandlers bus.handlers (goValueQualifiedName v) with
  | some ls => decide (0 < ls.length)
  | none => false

/-- `eventBus.findHandler` (part_001 lines 334-343), returning `-1` when the
qualified name is not present. -/
def findHandlerAux : List BusListener → String → Int → Int
  | [], _, _ => -1
  | l :: rest, qn, i => if l.qualifiedName = qn then i else findHandlerAux rest qn (i + 1)

def findHandler (bus : EventBus) (eventTypeName qn : String) : Int :=
  match lookupHandlers bus.handlers eventTypeName with
  | some ls => findHandlerAux ls qn 0
  | none => -1

/-- `eventBus.removeHandler` (part_001 lines 321-332): delete the listener at
`index` when in bounds, preserving the order of the rest. -/
def removeHandler (bus : EventBus) (eventTypeName : String) (index : Int) :
    EventBus × Bool :=
  let ls := handlersAt bus.handlers eventTypeName
  if 0 ≤ index ∧ index < (ls.length : Int) then
    let ls1 := ls.take index.toNat ++ ls.drop (index.toNat + 1)
    ({ bus with handlers := setHandlers bus.handlers eventTypeName ls1 }, true)
  else (bus, false)

/-- `eventBus.Unsubscribe` (part_001 lines 191-208). -/
def Unsubscribe (bus : EventBus) (h : GoHandler) : EventBus × Option BusError :=
  match newBusListener bus.nextId h with
  | .error e => (bus, some (.invalidHandler (handlerQualifiedName h) e))
  | .ok l =>
    match lookupHandlers bus.handlers l.eventTypeName with
    | some ls =>
      if 0 < ls.length then
        match removeHandler bus l.eventTypeName
            (findHandler bus l.eventTypeName (handlerQualifiedName h)) with
        | (bus1, true) => (bus1, none)
        | (bus1, false) => (bus1, some .handlerNotFound)
      else (bus, some (.eventTypeNotExist (handlerQualifiedName h)))
    | none => (bus, some (.eventTypeNotExist (handlerQualifiedName h)))

/-- Result of the snapshot dispatch loop `eventBus.publish` (part_001 lines
302-319): either every listener ran (with the per-listener error aggregate),
or a listener panicked, unwinding the loop and discarding the aggregate. -/
inductive DispatchResult where
  | completed (agg : List (GoEvent × Nat × String))
  | panicked (pv : PanicVal)

/-- The dispatch loop of `eventBus.publish`: invoke each listener in order;
record returned non-nil errors keyed by (event, listener); a panic aborts the
remainder.  Also returns the invocation trace (listener id, event). -/
def dispatchList (event : GoEvent) : List BusListener →
    List (Nat × GoEvent) × DispatchResult
  | [] => ([], .completed [])
  | l :: rest =>
    match l.behavior event with
    | .panics pv => ([(l.id, event)], .panicked pv)
    | outcome =>
      let r := dispatchList event rest
      let here : List (GoEvent × Nat × String) :=
        if l.hasErrorReturn then
          match outcome with
          | .err m => [(event, l.id, m)]
          | _ => []
        else []
      ((l.id, event) :: r.1,
        match r.2 with
        | .panicked pv => .panicked pv
        | .completed agg => .completed (here ++ agg))

/-- The deferred `recover` of `eventBus.Publish` (lines 261-275) turning a
panic value into the returned error. -/
def recoverPanic : PanicVal → BusError
  | .errVal m => .recoveredPanic m
  | .strVal m => .recoveredPanic m
  | .otherVal qn => .unsupportedPanicType qn

/-- `eventBus.Publish` (part_001 lines 258-299).  Returns the new bus state,
the returned error (`none` for nil) and the invocation trace.  A `none` event
models publishing `nil`. -/
def Publish (bus : EventBus) (event : Option GoEvent) :
    EventBus × Option BusError × List (Nat × GoEvent) :=
  match event with
  | none => (bus, some .eventMustNotBeNil, [])
  | some e =>
    if bus.isStarted = false then
      ({ bus with queue := bus.queue ++ [e] }, none, [])
    else
      match lookupHandlers bus.handlers (qualifiedNameOfEvent e) with
      | some hs =>
        if 0 < hs.length then
          match dispatchList e hs with
          | (tr, .panicked pv) => (bus, some (recoverPanic pv), tr)
          | (tr, .completed agg) =>
            (bus, if agg = [] then none else some (.publishFailure agg), tr)
        else (bus, none, [])
      | none => (bus, none, [])

/-- The replay loop of `eventBus.activate` (part_001 lines 82-103):
republish each queued event, merging `PublishError` aggregates and aborting
on any other error. -/
def activateLoop (bus : EventBus) (acc : List (GoEvent × Nat × String))
    (trace : List (Nat × GoEvent)) :
    List GoEvent → EventBus × Option BusError × List (Nat × GoEvent)
  | [] => (bus, if acc = [] then none else some (.publishFailure acc), trace)
  | e :: rest =>
    match Publish bus (some e) with
    | (bus1, none, tr) => activateLoop bus1 acc (trace ++ tr) rest
    | (bus1, some (.publishFailure entries), tr) =>
      activateLoop bus1 (acc ++ entries) (trace ++ tr) rest
    | (bus1, some err, tr) => (bus1, some err, trace ++ tr)

/-- `eventBus.activate`: set `isStarted` and then replay the queue.  The
queue itself is left untouched by the source. -/
def activate (bus : EventBus) : EventBus × Option BusError × List (Nat × GoEvent) :=
  let b := { bus with isStarted := true }
  activateLoop b [] [] b.queue

/-- `eventBus.Init` (part_001 lines 77-80): the `Component` lifecycle
callback, resetting the bus to the queuing state. -/
def busInit (bus : EventBus) : EventBus :=
  { bus with isStarted := false }

/-- The per-listener error aggregate produced by a completed dispatch of
`event` to `ls`, used to state what `eventBus.publish` collects. -/
def dispatchAgg (event : GoEvent) (ls : List BusListener) :
    List (GoEvent × Nat × String) :=
  ls.filterMap (fun l =>
    if l.hasErrorReturn then
      match l.behavior event with
      | .err m => some (event, l.id, m)
      | _ => none
    else none)

/-- Predicate: invoking `l` on `event` does not panic. -/
def NoPanic (event : GoEvent) (l : BusListener) : Prop :=
  ∀ pv, l.behavior event ≠ .panics pv

/-- The expected full replay trace of a queue: each queued event in publish
order, delivered once to each listener stored under its routing key, in
subscription order. -/
def replayTrace (bus : EventBus) : List GoEvent → List (Nat × GoEvent)
  | [] => []
  | e :: rest =>
    (handlersAt bus.handlers (qualifiedNameOfEvent e)).map (fun l => (l.id, e)) ++
      replayTrace bus rest

/-! Concrete sample values used by counterexamples and witnesses. -/

/-- A sample event of type `p/T`. -/
def evT : GoEvent := { pkgPath := "p", typeName := "T", payload := 0 }

/-- A second sample event of the same type. -/
def evT2 : GoEvent := { pkgPath := "p", typeName := "T", payload := 1 }

/-- A listener (id 1) that panics with the string `"boom"`. -/
def lPanic : BusListener :=
  { id := 1, qualifiedName := "p.h1", eventTypeName := "p/T",
    hasErrorReturn := false, behavior := fun _ => .panics (.strVal "boom") }

/-- A listener (id 2) that completes normally. -/
def lOk : BusListener :=
  { id := 2, qualifiedName := "p.h2", eventTypeName := "p/T",
    hasErrorReturn := false, behavior := fun _ => .ok }

/-- A listener (id 1) that returns the error `"fail1"`. -/
def lErr : BusListener :=
  { id := 1, qualifiedName := "p.e1", eventTypeName := "p/T",
    hasErrorReturn := true, behavior := fun _ => .err "fail1" }

/-- A listener (id 2) with an error return type that returns nil. -/
def lOk2 : BusListener :=
  { id := 2, qualifiedName := "p.e2", eventTypeName := "p/T",
    hasErrorReturn := true, behavior := fun _ => .ok }

/-- An Active bus whose snapshot for `p/T` is a panicking listener followed
by a healthy one. -/
def busPanicPair : EventBus :=
  { handlers := [("p/T", [lPanic, lOk])], isStarted := true, queue := [], nextId := 3 }

/-- An Active bus with an error-returning listener followed by a healthy
one. -/
def busErrPair : EventBus :=
  { handlers := [("p/T", [lErr, lOk2])], isStarted := true, queue := [], nextId := 3 }

/-- An Idle bus with one queued event whose first listener panics. -/
def busPanicQueue : EventBus :=
  { handlers := [("p/T", [lPanic, lOk])], isStarted := false, queue := [evT], nextId := 3 }

/-- An Idle bus with no handlers and one queued event. -/
def busQueueOnly : EventBus :=
  { handlers := [], isStarted := false, queue := [evT], nextId := 0 }

/-- A started bus holding one subscription for `p/T` made by the function
`p.f`. -/
def lSubF : BusListener :=
  { id := 0, qualifiedName := "p.f", eventTypeName := "p/T",
    hasErrorReturn := false, behavior := fun _ => .ok }

def busOneSub : EventBus :=
  { handlers := [("p/T", [lSubF])], isStarted := true, queue := [], nextId := 1 }

/-- The handler function `p.f` (of argument type `p/T`) viewed as a
`HasHandler` argument. -/
def vFn : GoValue := .fn "p.f" "p" "T"

/-- Three listeners subscribed for `p/T` by the functions `f0`, `f1`, `f2`. -/
def lF0 : BusListener :=
  { id := 0, qualifiedName := "f0", eventTypeName := "p/T",
    hasErrorReturn := false, behavior := fun _ => .ok }

def lF1 : BusListener :=
  { id := 1, qualifiedName := "f1", eventTypeName := "p/T",
    hasErrorReturn := false, behavior := fun _ => .ok }

def lF2 : BusListener :=
  { id := 2, qualifiedName := "f2", eventTypeName := "p/T",
    hasErrorReturn := false, behavior := fun _ => .ok }

/-- An Idle bus with two healthy listeners (ids 1 and 2) and two queued
events. -/
def busTwoQueued : EventBus :=
  { handlers := [("p/T", [lF1, lOk])], isStarted := false, queue := [evT, evT2],
    nextId := 3 }

def busThreeSubs : EventBus :=
  { handlers := [("p/T", [lF0, lF1, lF2])], isStarted := true, queue := [], nextId := 9 }

/-- The handler value `f1` used to unsubscribe the middle listener. -/
def hF1 : GoHandler := .func "f1" [("p", "T")] .noRet (fun _ => .ok)

/-- The listener that validating `hF1` on `busThreeSubs` produces. -/
def lF1Val : BusListener :=
  { id := 9, qualifiedName := "f1", eventTypeName := "p/T",
    hasErrorReturn := false, behavior := fun _ => .ok }

/-! Dependency/configuration resolver (part_004) and the tag parser it
uses.  Components are modelled with their reflected type name, their tagged
fields and the outcome of their `Init`; the registry plays the role of the
heap, entries being addressed by (qualified type name, registration name)
instead of by pointer. -/

/-- A parsed field tag (part_004 lines 308-311): directive name and
options. -/
structure GoTag where
  name : Str
  options : List (Str × Str)
deriving DecidableEq

/-- Go map assignment on the options map: overwrite or add the key. -/
def optInsert (m : List (Str × Str)) (k v : Str) : List (Str × Str) :=
  m.filter (fun p => decide (p.1 ≠ k)) ++ [(k, v)]

/-- Go map lookup on the options map. -/
def optLookup : List (Str × Str) → Str → Option Str
  | [], _ => none
  | (k, v) :: rest, key => if k = key then some v else optLookup rest key

/-- `tag.hasOption` (part_004 lines 313-316). -/
def hasOpt (t : GoTag) (k : Str) : Bool :=
  (optLookup t.options k).isSome

/-- Go `strings.Trim`: drop characters of the cutset from both ends. -/
def goTrimChars (cutset : List Char) (s : Str) : Str :=
  ((s.dropWhile (fun c => decide (c ∈ cutset))).reverse.dropWhile
    (fun c => decide (c ∈ cutset))).reverse

/-- Go `strings.TrimSpace` (restricted to ASCII whitespace). -/
def goTrimSpace (s : Str) : Str :=
  goTrimChars [' ', Char.ofNat 9, Char.ofNat 10, Char.ofNat 11, Char.ofNat 12,
    Char.ofNat 13] s

/-- The option loop of `parseStructTag` (part_004 lines 328-344): each token
after the first splits on `:` (honouring the quote) into one piece (key-only
option) or two pieces (key and value, the value trimmed of space and quote
characters); anything else is a parse failure. -/
def parseTagOptionsLoop : List Str → List (Str × Str) → Option (List (Str × Str))
  | [], opts => some opts
  | token :: rest, opts =>
    let subtokens := (Split token (str ":") [quoteCh]).1
    if 0 < subtokens.length ∧ subtokens.length < 3 then
      if subtokens.length = 2 then
        parseTagOptionsLoop rest (optInsert opts (subtokens.headD [])
          (goTrimChars [' ', quoteCh] (subtokens.getD 1 [])))
      else parseTagOptionsLoop rest (optInsert opts (subtokens.headD []) [])
    else none

/-- `parseStructTag` (part_004 lines 321-349). -/
def parseStructTag (tagValue : Str) : Option GoTag :=
  match Split tagValue (str ",") [quoteCh] with
  | (tokens, true) =>
    match parseTagOptionsLoop (tokens.drop 1) [] with
    | some opts => some { name := goTrimSpace (tokens.headD []), options := opts }
    | none => none
  | (_, false) => none

/-- The outcome of a component's `Init`. -/
inductive InitOutcome where
  | ok
  | fail (msg : String)
  | panics (pv : PanicVal)
deriving DecidableEq

/-- The current value of a component field; the constructor also plays the
role of the field's reflected kind (`string`/`int`/`bool` scalar fields, and
pointer-or-interface fields holding a reference, `none` for a nil one). -/
inductive FieldContent where
  | str (s : Str)
  | int (i : Int)
  | bool (b : Bool)
  | ref (assigned : Option (String × String))
deriving DecidableEq

/-- A struct field of a component: its name, declared type name (used for
assignability), settability, raw `boot` tag (when present) and value. -/
structure GoField where
  name : String
  typeName : String
  canSet : Bool
  tag : Option Str
  content : FieldContent
deriving DecidableEq

/-- A component: reflected package path and type name, fields, and the
behaviour of its `Init`. -/
structure GoComponent where
  pkgPath : String
  typeName : String
  fields : List GoField
  initOutcome : InitOutcome
deriving DecidableEq

/-- `QualifiedName` of a (pointer-to-struct) component: element package path
plus slash plus element type name. -/
def compQualifiedName (c : GoComponent) : String :=
  c.pkgPath ++ "/" ++ c.typeName

/-- `componentState` (part_007): the lifecycle states. -/
inductive CState where
  | Created
  | Initialized
  | Started
  | Stopped
  | Failed
deriving DecidableEq

/-- A `componentManager`: name, component and state. -/
structure RegEntry where
  name : String
  component : GoComponent
  state : CState
deriving DecidableEq

/-- The registry's `items` map: qualified type name → registration name →
entry. -/
abbrev Registry := List (String × List (String × RegEntry))

/-- A registry address, modelling a `*componentManager`: (qualified type
name, registration name). -/
abbrev EntryKey := String × String

def assocFind : List (String × RegEntry) → String → Option RegEntry
  | [], _ => none
  | (n, e) :: rest, name => if n = name then some e else assocFind rest name

def regLookup : Registry → EntryKey → Option RegEntry
  | [], _ => none
  | (t, inner) :: rest, k =>
    if t = k.1 then assocFind inner k.2 else regLookup rest k

def setInner : List (String × RegEntry) → String → RegEntry → List (String × RegEntry)
  | [], _, _ => []
  | (n, old) :: rest, name, e =>
    if n = name then (n, e) :: rest else (n, old) :: setInner rest name e

/-- Write through an entry pointer: replace the entry stored at `k`. -/
def regSet : Registry → EntryKey → RegEntry → Registry
  | [], _, _ => []
  | (t, inner) :: rest, k, e =>
    if t = k.1 then (t, setInner inner k.2 e) :: rest else (t, inner) :: regSet rest k e

/-- Mutate the state of the entry at `k` (a no-op if absent). -/
def regSetState (reg : Registry) (k : EntryKey) (st : CState) : Registry :=
  match regLookup reg k with
  | some e => regSet reg k { e with state := st }
  | none => reg

/-- Mutate the fields of the component owned by the entry at `k`. -/
def regSetFields (reg : Registry) (k : EntryKey) (fields : List GoField) : Registry :=
  match regLookup reg k with
  | some e => regSet reg k { e with component := { e.component with fields := fields } }
  | none => reg

/-- The reflective and environmental context of resolution:
`reflect.Type.AssignableTo` on qualified type names, `os.Args`, and the
process environment. -/
structure InjectCtx where
  assignable : String → String → Bool
  args : List Str
  env : List (Str × Str)

/-- `DefaultName` (framework.go). -/
def DefaultName : String := "default"

/-- The flag test of `getConfig` (part_004 line 244):
`strings.HasPrefix(arg, "--") && len(arg) > 2`. -/
def isFlagArg : Str → Bool
  | a :: b :: _ :: _ => a == '-' && b == '-'
  | _ => false

/-- The argv scan loop of `getConfig` (part_004 lines 242-253), carrying the
`key` variable of the source. -/
def getConfigScan (cfgKey : Str) : Str → List Str → Option Str
  | _, [] => none
  | key, arg :: rest =>
    if isFlagArg arg then getConfigScan cfgKey (arg.drop 2) rest
    else if key ≠ [] then
      if cfgKey = key then some arg else getConfigScan cfgKey key rest
    else getConfigScan cfgKey key rest

/-- `os.LookupEnv`. -/
def lookupEnv : List (Str × Str) → Str → Option Str
  | [], _ => none
  | (k, v) :: rest, key => if k = key then some v else lookupEnv rest key

/-- `getConfig` (part_004 lines 241-255): scan argv, else the environment. -/
def getConfig (ctx : InjectCtx) (cfgKey : Str) : Option Str :=
  match getConfigScan cfgKey [] ctx.args with
  | some v => some v
  | none => lookupEnv ctx.env cfgKey

/-- Modelled from the spec: "process command-line flags of the form
`--<key> <value>` (space-separated, consecutive argv entries)" — the value
of the first consecutive argv pair whose first entry is the flag `--cfgKey`
and whose second entry is a value (not itself a flag). -/
def specCmdlineLookup (cfgKey : Str) : List Str → Option Str
  | a :: b :: rest =>
    if a = '-' :: '-' :: cfgKey ∧ isFlagArg a = true ∧ isFlagArg b = false then some b
    else specCmdlineLookup cfgKey (b :: rest)
  | _ => none

/-- The canonical continuation of the argv scan when the pending key equals
the searched key: the next entry if it is a value, else the first matching
later pair. -/
def scanContinue (cfgKey : Str) : List Str → Option Str
  | [] => none
  | a :: rest =>
    if isFlagArg a = false then some a else specCmdlineLookup cfgKey (a :: rest)

/-- Go `strconv.ParseBool`. -/
def parseGoBool (s : Str) : Bool × Bool :=
  if s = str "1" ∨ s = str "t" ∨ s = str "T" ∨ s = str "true" ∨ s = str "TRUE" ∨
      s = str "True" then (true, true)
  else if s = str "0" ∨ s = str "f" ∨ s = str "F" ∨ s = str "false" ∨
      s = str "FALSE" ∨ s = str "False" then (false, true)
  else (false, false)

/-- Decimal digit string value. -/
def digitsVal : Str → Option Nat
  | [] => none
  | ds =>
    ds.foldl (fun acc c =>
      match acc with
      | none => none
      | some n => if c.isDigit then some (n * 10 + (c.toNat - 48)) else none)
      (some 0)

/-- Go `strconv.ParseInt(s, 10, 64)`: the returned value and the ok flag;
on a syntax error the value is 0, on range overflow it is clamped to the
64-bit bounds (both with `ok = false`), mirroring what the caller then
stores. -/
def parseGoInt (s : Str) : Int × Bool :=
  match s with
  | '+' :: rest => parseGoIntCore rest 1
  | '-' :: rest => parseGoIntCore rest (-1)
  | rest => parseGoIntCore rest 1
where parseGoIntCore (ds : Str) (sign : Int) : Int × Bool :=
  match digitsVal ds with
  | none => (0, false)
  | some n =>
    let v : Int := sign * (n : Int)
    if v < -(2 ^ 63) then (-(2 ^ 63), false)
    else if (2 ^ 63 : Int) - 1 < v then ((2 ^ 63 : Int) - 1, false)
    else (v, true)

/-- The `"<Type.Field>"` detail string of the injection errors. -/
def fieldDetail (comp : GoComponent) (field : GoField) : String :=
  "<" ++ comp.typeName ++ "." ++ field.name ++ ">"

/-- The `"<name:Type.Field>"` detail string of the wiring errors. -/
def wireDetail (regEntryName : String) (comp : GoComponent) (field : GoField) : String :=
  "<" ++ regEntryName ++ ":" ++ comp.typeName ++ "." ++ field.name ++ ">"

/-- The injection errors, one constructor per error site of part_004.
`outOfFuel` models non-termination of the unguarded recursion (a stack
overflow in the source) and `nilEntryPanic` the nil-pointer dereference on a
registry whose outer key disagrees with the component type. -/
inductive InjError where
  | unparsableTag (detail : String)
  | unsupportedTag (detail : String)
  | notPointerReceiver (detail : String)
  | cannotSet (detail : String)
  | dependencyNotFound (detail : String)
  | multipleDependencies (detail : String)
  | configLoadFailed (cfgKey : Str) (detail : String)
  | unsupportedTagValue (cfgKey : Str)
  | unsupportedConfigOptions (detail : String)
  | initFailed (fullName : String) (msg : String)
  | initPanicked (fullName : String) (msg : String)
  | nilEntryPanic
  | outOfFuel
deriving DecidableEq

/-- `processConfigString` (part_004 lines 299-306). -/
def processConfigString (field : GoField) (cfgValue : Str) : GoField :=
  match field.content with
  | .str s => if s = [] then { field with content := .str cfgValue } else field
  | _ => field

/-- `processConfigInt` (part_004 lines 277-297). -/
def processConfigInt (field : GoField) (comp : GoComponent) (cfgValue : Str)
    (panicOnFail : Bool) (cfg : Str) : Except InjError GoField :=
  match field.content with
  | .int i =>
    if i = 0 then
      match parseGoInt cfgValue with
      | (v, true) => .ok { field with content := .int v }
      | (v, false) =>
        if panicOnFail then .error (.configLoadFailed cfg (fieldDetail comp field))
        else .ok { field with content := .int v }
    else .ok field
  | _ => .ok field

/-- `processConfigBool` (part_004 lines 257-275). -/
def processConfigBool (field : GoField) (comp : GoComponent) (cfgValue : Str)
    (panicOnFail : Bool) (cfg : Str) : Except InjError GoField :=
  match field.content with
  | .bool b =>
    if b = false then
      match parseGoBool cfgValue with
      | (v, true) => .ok { field with content := .bool v }
      | (v, false) =>
        if panicOnFail then .error (.configLoadFailed cfg (fieldDetail comp field))
        else .ok { field with content := .bool v }
    else .ok field
  | _ => .ok field

/-- `processConfigValue` (part_004 lines 228-239): string, then int, then
bool. -/
def processConfigValue (comp : GoComponent) (field : GoField) (cfgValue : Str)
    (cfgKey : Str) (panicOnFail : Bool) : Except InjError GoField :=
  let f1 := processConfigString field cfgValue
  match processConfigInt f1 comp cfgValue panicOnFail cfgKey with
  | .error e => .error e
  | .ok f2 => processConfigBool f2 comp cfgValue panicOnFail cfgKey

/-- `processConfiguration` (part_004 lines 184-226). -/
def processConfiguration (ctx : InjectCtx) (comp : GoComponent) (field : GoField)
    (ptag : GoTag) : Except InjError GoField :=
  let panicOnFail := hasOpt ptag (str "panic")
  let hasDefault := hasOpt ptag (str "default")
  let defaultCfg := (optLookup ptag.options (str "default")).getD []
  if hasOpt ptag (str "key") then
    let cfgKey := (optLookup ptag.options (str "key")).getD []
    if 0 < cfgKey.length then
      match getConfig ctx cfgKey with
      | some cfgValue =>
        if field.canSet then processConfigValue comp field cfgValue cfgKey panicOnFail
        else .ok field
      | none =>
        if hasDefault then
          if field.canSet then processConfigValue comp field defaultCfg cfgKey panicOnFail
          else .ok field
        else if panicOnFail then
          .error (.configLoadFailed cfgKey (fieldDetail comp field))
        else .ok field
    else .error (.unsupportedTagValue cfgKey)
  else .error (.unsupportedConfigOptions (fieldDetail comp field))

/-- A field is a valid wire target when its reflected kind is pointer or
interface (part_004 line 134). -/
def isRefField (field : GoField) : Bool :=
  match field.content with
  | .ref _ => true
  | _ => false

/-- The candidate-collection loop of `processWiring` (part_004 lines
140-156): for each type bucket of the registry, take the entry registered
under `regEntryName`; when its component is assignable to the field type it
is a match (an unsettable field is an immediate error). -/
def collectLoop (ctx : InjectCtx) (fieldType : String) (canSet : Bool)
    (detail : String) (regEntryName : String) :
    Registry → Except InjError (List GoComponent)
  | [] => .ok []
  | (_, inner) :: rest =>
    match assocFind inner regEntryName with
    | some e =>
      if ctx.assignable (compQualifiedName e.component) fieldType then
        if canSet then
          match collectLoop ctx fieldType canSet detail regEntryName rest with
          | .ok ms => .ok (e.component :: ms)
          | .error er => .error er
        else .error (.cannotSet detail)
      else collectLoop ctx fieldType canSet detail regEntryName rest
    | none => collectLoop ctx fieldType canSet detail regEntryName rest

/-- The matches the claim counts: registry entries registered under
`regEntryName` whose component type is assignable to the field type. -/
def wireMatches (ctx : InjectCtx) (fieldType : String) (regEntryName : String)
    (reg : Registry) : List GoComponent :=
  reg.filterMap (fun p =>
    match assocFind p.2 regEntryName with
    | some e =>
      if ctx.assignable (compQualifiedName e.component) fieldType then
        some e.component
      else none
    | none => none)

/-- `getFullName` of an entry: registration name, colon, qualified type
name. -/
def entryFullName (k : EntryKey) : String := k.2 ++ ":" ++ k.1

def panicText : PanicVal → String
  | .errVal m => m
  | .strVal m => m
  | .otherVal qn => qn

/-- Convert a model string to a Lean `String` (for registry names parsed
from tags). -/
def strOfChars (l : Str) : String := String.mk l

mutual

/-- `resolveDependency` (part_004 lines 55-111): skip non-Created entries,
process every tagged field (wiring or configuration), then run `Init`,
marking the entry Failed or Initialized; the registry is threaded through
explicitly because the source mutates entries in place.  The fuel argument
makes the unguarded recursion (which can diverge on dependency cycles)
well-founded; each nested call consumes one unit. -/
def resolveDependency (ctx : InjectCtx) : Nat → EntryKey → Registry →
    Registry × Except InjError (List EntryKey)
  | 0, _, reg => (reg, .error .outOfFuel)
  | fuel + 1, key, reg =>
    match regLookup reg key with
    | none => (reg, .error .nilEntryPanic)
    | some entry =>
      if entry.state ≠ CState.Created then (reg, .ok [])
      else
        match resolveFieldsLoop ctx fuel key entry.component entry.component.fields [] reg [] with
        | (reg1, .error e) => (reg1, .error e)
        | (reg1, .ok acc) =>
          match entry.component.initOutcome with
          | .ok => (regSetState reg1 key .Initialized, .ok (acc ++ [key]))
          | .fail msg =>
            (regSetState reg1 key .Failed,
              .error (.initFailed (entryFullName key) msg))
          | .panics pv =>
            (regSetState reg1 key .Failed,
              .error (.initPanicked (entryFullName key) (panicText pv)))

/-- The field loop of `resolveDependency` (part_004 lines 65-100): parse
each tag, dispatch on the directive, and write the updated field back
through the entry pointer after each step. -/
def resolveFieldsLoop (ctx : InjectCtx) : Nat → EntryKey → GoComponent →
    List GoField → List GoField → Registry → List EntryKey →
    Registry × Except InjError (List EntryKey)
  | 0, _, _, _, _, reg, _ => (reg, .error .outOfFuel)
  | _ + 1, _, _, [], _, reg, acc => (reg, .ok acc)
  | fuel + 1, key, comp, field :: rest, done, reg, acc =>
    match field.tag with
    | none => resolveFieldsLoop ctx fuel key comp rest (done ++ [field]) reg acc
    | some rawTag =>
      match parseStructTag rawTag with
      | none => (reg, .error (.unparsableTag (fieldDetail comp field)))
      | some ptag =>
        if ptag.name = str "wire" then
          let regEntryName0 := strOfChars ((optLookup ptag.options (str "name")).getD [])
          let regEntryName := if regEntryName0 = "" then DefaultName else regEntryName0
          match processWiring ctx fuel reg comp field regEntryName with
          | (reg1, .error e) => (reg1, .error e)
          | (reg1, .ok (assignedKey, ents)) =>
            let field1 := { field with content := .ref (some assignedKey) }
            let reg2 := regSetFields reg1 key (done ++ field1 :: rest)
            resolveFieldsLoop ctx fuel key comp rest (done ++ [field1]) reg2 (acc ++ ents)
        else if ptag.name = str "config" then
          match processConfiguration ctx comp field ptag with
          | .error e => (reg, .error e)
          | .ok field1 =>
            let reg2 := regSetFields reg key (done ++ field1 :: rest)
            resolveFieldsLoop ctx fuel key comp rest (done ++ [field1]) reg2 acc
        else (reg, .error (.unsupportedTag (fieldDetail comp field)))

/-- `processWiring` (part_004 lines 133-182): reject non-reference fields,
collect the matching candidates, and dispatch on the match count — exactly
one match resolves the dependency first when it is still Created, then
records the assignment (returned as the assigned entry key). -/
def processWiring (ctx : InjectCtx) : Nat → Registry → GoComponent → GoField →
    String → Registry × Except InjError (EntryKey × List EntryKey)
  | 0, reg, _, _, _ => (reg, .error .outOfFuel)
  | fuel + 1, reg, comp, field, regEntryName =>
    if isRefField field = false then
      (reg, .error (.notPointerReceiver (fieldDetail comp field)))
    else
      match collectLoop ctx field.typeName field.canSet (fieldDetail comp field)
          regEntryName reg with
      | .error e => (reg, .error e)
      | .ok ms =>
        match ms with
        | [c] =>
          match regLookup reg (compQualifiedName c, regEntryName) with
          | none => (reg, .error .nilEntryPanic)
          | some e =>
            if e.state = CState.Created then
              match resolveDependency ctx fuel (compQualifiedName c, regEntryName) reg with
              | (reg1, .error err) => (reg1, .error err)
              | (reg1, .ok ents) =>
                (reg1, .ok ((compQualifiedName c, regEntryName), ents))
            else (reg, .ok ((compQualifiedName c, regEntryName), []))
        | [] => (reg, .error (.dependencyNotFound (wireDetail regEntryName comp field)))
        | _ => (reg, .error (.multipleDependencies (wireDetail regEntryName comp field)))

end

/-! Concrete resolver sample values used by witnesses. -/

/-- A dependency component `p/B` with no fields and a clean `Init`. -/
def compB : GoComponent :=
  { pkgPath := "p", typeName := "B", fields := [], initOutcome := .ok }

def entryB : RegEntry := { name := "default", component := compB, state := .Created }

/-- A registry holding only `p/B` under the default name. -/
def regOneB : Registry := [("p/B", [("default", entryB)])]

/-- A settable reference field of declared type `p/B` carrying a wire tag. -/
def fieldDep : GoField :=
  { name := "Dep", typeName := "p/B", canSet := true, tag := some (str "wire"),
    content := .ref none }

/-- The component owning `fieldDep`. -/
def compA : GoComponent :=
  { pkgPath := "p", typeName := "A", fields := [fieldDep], initOutcome := .ok }

/-- A wiring context whose assignability relation relates exactly `p/B` to
itself. -/
def ctxWire : InjectCtx :=
  { assignable := fun a b => decide (a = "p/B" ∧ b = "p/B"), args := [], env := [] }

/-- A configuration context: argv carries `--PORT 99`, the environment
carries `PORT=7`. -/
def ctxConfig : InjectCtx :=
  { assignable := fun _ _ => false,
    args := [str "--PORT", str "99"],
    env := [(str "PORT", str "7")] }

/-- A settable, zero-valued string field for the `PORT` key. -/
def fieldPort : GoField :=
  { name := "Port", typeName := "string", canSet := true,
    tag := some (str "config,key:PORT,default:8080"), content := .str [] }

def compCfg : GoComponent :=
  { pkgPath := "p", typeName := "C", fields := [fieldPort], initOutcome := .ok }

/-- The parsed tag `config,key:PORT,default:8080`. -/
def tagPort : GoTag :=
  { name := str "config",
    options := [(str "key", str "PORT"), (str "default", str "8080")] }

/-! Lemmas about the split/join pair. -/

theorem leadSeg_drop {p s : Str} (h : leadSeg p s = true) : s = p ++ s.drop p.length := by
  induction p generalizing s with
  | nil => simp
  | cons a as ih =>
    cases s with
    | nil => simp [leadSeg] at h
    | cons b bs =>
      simp only [leadSeg, Bool.and_eq_true, decide_eq_true_eq] at h
      obtain ⟨rfl, h2⟩ := h
      simpa using ih h2

theorem findSep_eq {sep : Str} :
    ∀ {s pre post : Str}, findSep sep s = some (pre, post) → s = pre ++ sep ++ post := by
  intro s
  induction s with
  | nil => intro pre post h; simp [findSep] at h
  | cons c rest ih =>
    intro pre post h
    by_cases hl : leadSeg sep (c :: rest) = true
    · rw [findSep, if_pos hl] at h
      obtain ⟨rfl, rfl⟩ : pre = [] ∧ (c :: rest).drop sep.length = post := by
        cases h; exact ⟨rfl, rfl⟩
      simpa using (leadSeg_drop hl)
    · rw [findSep, if_neg hl] at h
      cases hfs : findSep sep rest with
      | none => rw [hfs] at h; cases h
      | some pq =>
        obtain ⟨p, q⟩ := pq
        rw [hfs] at h
        obtain ⟨rfl, rfl⟩ : c :: p = pre ∧ q = post := by cases h; exact ⟨rfl, rfl⟩
        have := ih hfs
        simp [this]

theorem findSep_post_lt {sep : Str} (hsep : sep ≠ []) {s pre post : Str}
    (h : findSep sep s = some (pre, post)) : post.length < s.length := by
  have hs := findSep_eq h
  have : s.length = pre.length + (sep.length + post.length) := by
    rw [hs]; simp
  have hsl : 0 < sep.length := List.length_pos.mpr hsep
  omega

theorem goSplitNE_ne_nil (sep : Str) (fuel : Nat) (s : Str) : goSplitNE sep fuel s ≠ [] := by
  cases fuel with
  | zero => simp [goSplitNE]
  | succ n =>
    rw [goSplitNE]
    cases findSep sep s with
    | none => simp
    | some pq => simp

theorem goJoin_cons {rest : List Str} (h : rest ≠ []) (x sep : Str) :
    goJoin (x :: rest) sep = x ++ sep ++ goJoin rest sep := by
  cases rest with
  | nil => exact absurd rfl h
  | cons y ys => rfl

theorem goJoin_append_singleton (res : List Str) (x sep : Str) :
    goJoin (res ++ [x]) sep =
      if res = [] then x else goJoin res sep ++ sep ++ x := by
  induction res with
  | nil => simp [goJoin]
  | cons r rs ih =>
    by_cases hrs : rs = []
    · subst hrs; simp [goJoin]
    · have h1 : rs ++ [x] ≠ [] := by simp
      rw [List.cons_append, goJoin_cons h1, ih, if_neg hrs, if_neg (by simp : r :: rs ≠ []),
        goJoin_cons hrs]
      simp [List.append_assoc]

theorem goJoin_goSplitNE {sep : Str} (hsep : sep ≠ []) :
    ∀ fuel s, s.length < fuel → goJoin (goSplitNE sep fuel s) sep = s := by
  intro fuel
  induction fuel with
  | zero => intro s h; omega
  | succ n ih =>
    intro s h
    rw [goSplitNE]
    cases hfs : findSep sep s with
    | none => rfl
    | some pq =>
      obtain ⟨pre, post⟩ := pq
      have hlt : post.length < s.length := findSep_post_lt hsep hfs
      rw [goJoin_cons (goSplitNE_ne_nil sep n post), ih post (by omega)]
      exact (findSep_eq hfs).symm

theorem goJoin_goSplit (s sep : Str) : goJoin (goSplit s sep) sep = s := by
  by_cases hsep : sep = []
  · subst hsep
    rw [goSplit, if_pos rfl]
    induction s with
    | nil => rfl
    | cons c cs ih =>
      by_cases hcs : cs = []
      · subst hcs; rfl
      · have h1 : cs.map (fun c => [c]) ≠ [] := by simpa using hcs
        simp only [List.map_cons]
        rw [goJoin_cons h1, ih]
        simp
  · rw [goSplit, if_neg hsep]
    exact goJoin_goSplitNE hsep (s.length + 1) s (by omega)

/-- The quote count of the empty token is `0` whenever the quote string is
nonempty. -/
theorem quoteCount_nil {quote : Str} (hq : quote ≠ []) : quoteCount quote [] = 0 := by
  rw [quoteCount, goSplit, if_neg hq]
  rfl

theorem odd_quoteCount_ne_nil {quote t : Str} (hq : quote ≠ [])
    (h : quoteCount quote t = 1 ∨ (quoteCount quote t).tmod 2 ≠ 0) : t ≠ [] := by
  intro ht
  subst ht
  rw [quoteCount_nil hq] at h
  rcases h with h | h
  · exact absurd h (by decide)
  · exact absurd rfl h

theorem goJoin_push {P : List Str} (hP : P ≠ []) (t sep : Str) :
    goJoin (P ++ [t]) sep = goJoin P sep ++ sep ++ t := by
  rw [goJoin_append_singleton, if_neg hP]

theorem splitStep_inv {sep quote : Str} (hq : quote ≠ []) {P : List Str}
    {acc : List Str × Str × Bool} (hinv : SplitInv sep P acc) (t : Str) :
    SplitInv sep (P ++ [t]) (splitStep sep quote acc t) := by
  obtain ⟨res, st, sm⟩ := acc
  obtain ⟨hst0, hst1, hjoin, hiff⟩ := hinv
  dsimp only at hst0 hst1 hiff
  by_cases hodd : quoteCount quote t = 1 ∨ (quoteCount quote t).tmod 2 ≠ 0
  · have ht : t ≠ [] := odd_quoteCount_ne_nil hq hodd
    cases sm with
    | true =>
      -- an open span is closed: the merged group is emitted
      have hP : P ≠ [] := fun h => absurd ((hiff.mp h).2) (by simp)
      have hstep : splitStep sep quote (res, st, true) t =
          (res ++ [st ++ sep ++ t], [], false) := by
        simp [splitStep, if_pos hodd]
      rw [hstep]
      refine ⟨fun _ => rfl, by simp, ?_, by simp⟩
      simp only [joinState] at hjoin ⊢
      rw [goJoin_push hP, ← hjoin]
      rw [goJoin_append_singleton, goJoin_append_singleton]
      by_cases hres : res = []
      · simp [hres]
      · rw [if_neg hres, if_neg hres]
        simp [List.append_assoc]
    | false =>
      -- a span opens: the token becomes the pending group
      have hst : st = [] := hst0 rfl
      subst hst
      have hstep : splitStep sep quote (res, [], false) t = (res, t, true) := by
        simp [splitStep, if_pos hodd]
      rw [hstep]
      refine ⟨by simp, fun _ => ht, ?_, by simp⟩
      simp only [joinState] at hjoin ⊢
      by_cases hres : res = []
      · have hP : P = [] := hiff.mpr ⟨hres, rfl⟩
        subst hP; subst hres
        simp [goJoin]
      · have hP : P ≠ [] := fun h => hres (hiff.mp h).1
        rw [goJoin_push hP, ← hjoin, goJoin_append_singleton, if_neg hres]
  · cases sm with
    | true =>
      -- summarizing continues across an unquoted token
      have hP : P ≠ [] := fun h => absurd ((hiff.mp h).2) (by simp)
      have hne : st ≠ [] := hst1 rfl
      have hstep : splitStep sep quote (res, st, true) t =
          (res, st ++ sep ++ t, true) := by
        simp [splitStep, if_neg hodd]
      rw [hstep]
      refine ⟨by simp, fun _ => by simp [hne], ?_, by simp⟩
      simp only [joinState] at hjoin ⊢
      rw [goJoin_push hP, ← hjoin]
      rw [goJoin_append_singleton, goJoin_append_singleton]
      by_cases hres : res = []
      · simp [hres]
      · rw [if_neg hres, if_neg hres]
        simp [List.append_assoc]
    | false =>
      -- a plain token forms its own group
      have hst : st = [] := hst0 rfl
      subst hst
      have hstep : splitStep sep quote (res, [], false) t = (res ++ [t], [], false) := by
        simp [splitStep, if_neg hodd]
      rw [hstep]
      refine ⟨fun _ => rfl, by simp, ?_, by simp⟩
      simp only [joinState] at hjoin ⊢
      by_cases hres : res = []
      · have hP : P = [] := hiff.mpr ⟨hres, rfl⟩
        subst hP; subst hres; rfl
      · have hP : P ≠ [] := fun h => hres (hiff.mp h).1
        rw [goJoin_push hP, goJoin_push hres, hjoin]

theorem splitLoop_inv {sep quote : Str} (hq : quote ≠ []) :
    ∀ (tokens : List Str) (P : List Str) (acc : List Str × Str × Bool),
      SplitInv sep P acc →
      SplitInv sep (P ++ tokens) (tokens.foldl (splitStep sep quote) acc) := by
  intro tokens
  induction tokens with
  | nil => intro P acc h; simpa using h
  | cons t ts ih =>
    intro P acc h
    have h1 := splitStep_inv hq h t
    have h2 := ih (P ++ [t]) _ h1
    simpa using h2

theorem splitInv_init (sep : Str) : SplitInv sep [] ([], [], false) := by
  refine ⟨fun _ => rfl, by simp, rfl, by simp⟩

theorem splitLoop_spec (s sep quote : Str) (hq : quote ≠ []) :
    SplitInv sep (goSplit s sep) (splitLoop sep quote (goSplit s sep)) := by
  have h := splitLoop_inv hq (goSplit s sep) [] ([], [], false) (splitInv_init sep)
  simpa [splitLoop] using h

/-! Lemmas about the event bus. -/

theorem publish_started_state {bus : EventBus} (h : bus.isStarted = true) (e : GoEvent) :
    (Publish bus (some e)).1 = bus := by
  rw [Publish]
  rw [if_neg (by simp [h])]
  cases hl : lookupHandlers bus.handlers (qualifiedNameOfEvent e) with
  | none => rfl
  | some hs =>
    dsimp only
    by_cases hlen : 0 < hs.length
    · rw [if_pos hlen]
      rcases hd : dispatchList e hs with ⟨tr, res⟩
      cases res <;> rfl
    · rw [if_neg hlen]

theorem publish_started_keeps {bus : EventBus} (h : bus.isStarted = true)
    (ev : Option GoEvent) : (Publish bus ev).1 = bus := by
  cases ev with
  | none => rfl
  | some e => exact publish_started_state h e

theorem dispatchList_noPanic {e : GoEvent} :
    ∀ {ls : List BusListener}, (∀ l ∈ ls, NoPanic e l) →
      dispatchList e ls = (ls.map (fun l => (l.id, e)), .completed (dispatchAgg e ls)) := by
  intro ls
  induction ls with
  | nil => intro _; rfl
  | cons l rest ih =>
    intro h
    have hl : NoPanic e l := h l (by simp)
    have hrest := ih (fun x hx => h x (by simp [hx]))
    cases hb : l.behavior e with
    | panics pv => exact absurd hb (hl pv)
    | ok =>
      simp only [dispatchList, hb, hrest, dispatchAgg, List.filterMap_cons]
      by_cases he : l.hasErrorReturn <;> simp [he, hb, dispatchAgg]
    | err m =>
      simp only [dispatchList, hb, hrest, dispatchAgg, List.filterMap_cons]
      by_cases he : l.hasErrorReturn <;> simp [he, hb, dispatchAgg]

theorem publish_started_noPanic {bus : EventBus} (h : bus.isStarted = true)
    (e : GoEvent)
    (hnp : ∀ l ∈ handlersAt bus.handlers (qualifiedNameOfEvent e), NoPanic e l) :
    Publish bus (some e) =
      (bus,
        if dispatchAgg e (handlersAt bus.handlers (qualifiedNameOfEvent e)) = []
          then none
          else some (.publishFailure
            (dispatchAgg e (handlersAt bus.handlers (qualifiedNameOfEvent e)))),
        (handlersAt bus.handlers (qualifiedNameOfEvent e)).map (fun l => (l.id, e))) := by
  rw [Publish, if_neg (by simp [h])]
  cases hl : lookupHandlers bus.handlers (qualifiedNameOfEvent e) with
  | none => simp [handlersAt, hl, dispatchAgg]
  | some hs =>
    have hAt : handlersAt bus.handlers (qualifiedNameOfEvent e) = hs := by
      simp [handlersAt, hl]
    rw [hAt] at hnp ⊢
    dsimp only
    by_cases hlen : 0 < hs.length
    · rw [if_pos hlen, dispatchList_noPanic hnp]
    · rw [if_neg hlen]
      have : hs = [] := by
        cases hs with
        | nil => rfl
        | cons a b => simp at hlen
      subst this
      simp [dispatchAgg]

theorem dispatchList_panic {e : GoEvent} {lp : BusListener} {pv : PanicVal}
    (hbp : lp.behavior e = .panics pv) :
    ∀ {pre : List BusListener} (post : List BusListener), (∀ l ∈ pre, NoPanic e l) →
      dispatchList e (pre ++ lp :: post) =
        ((pre ++ [lp]).map (fun l => (l.id, e)), .panicked pv) := by
  intro pre
  induction pre with
  | nil =>
    intro post _
    simp [dispatchList, hbp]
  | cons l rest ih =>
    intro post h
    have hl : NoPanic e l := h l (by simp)
    have hrest := ih post (fun x hx => h x (by simp [hx]))
    cases hb : l.behavior e with
    | panics pv2 => exact absurd hb (hl pv2)
    | ok => simp [dispatchList, hb, hrest]
    | err m => simp [dispatchList, hb, hrest]

theorem activateLoop_state {bus : EventBus} (h : bus.isStarted = true) :
    ∀ (evs : List GoEvent) acc tr, (activateLoop bus acc tr evs).1 = bus := by
  intro evs
  induction evs with
  | nil => intro acc tr; rfl
  | cons e rest ih =>
    intro acc tr
    rcases hp : Publish bus (some e) with ⟨b1, oe, tr1⟩
    have hb1 : b1 = bus := by
      have hh := publish_started_state h e
      rw [hp] at hh
      exact hh
    subst hb1
    cases oe with
    | none => rw [activateLoop, hp]; exact ih acc (tr ++ tr1)
    | some err =>
      cases err <;> first
        | (rw [activateLoop, hp]; exact ih _ _)
        | (rw [activateLoop, hp])

theorem activateLoop_trace (bus : EventBus) (h : bus.isStarted = true) :
    ∀ (evs : List GoEvent) acc tr,
      (∀ e ∈ evs, ∀ l ∈ handlersAt bus.handlers (qualifiedNameOfEvent e), NoPanic e l) →
      (activateLoop bus acc tr evs).2.2 = tr ++ replayTrace bus evs := by
  intro evs
  induction evs with
  | nil => intro acc tr _; simp [activateLoop, replayTrace]
  | cons e rest ih =>
    intro acc tr hnp
    have hcur := publish_started_noPanic h e (hnp e (by simp))
    have hrest : ∀ e2 ∈ rest, ∀ l ∈ handlersAt bus.handlers (qualifiedNameOfEvent e2),
        NoPanic e2 l := fun e2 he2 => hnp e2 (by simp [he2])
    rw [activateLoop, hcur]
    by_cases hagg : dispatchAgg e (handlersAt bus.handlers (qualifiedNameOfEvent e)) = []
    · rw [if_pos hagg]
      rw [ih _ _ hrest]
      simp [replayTrace]
    · rw [if_neg hagg]
      rw [ih _ _ hrest]
      simp [replayTrace]

theorem activate_state (bus : EventBus) :
    (activate bus).1 = { bus with isStarted := true } :=
  activateLoop_state rfl bus.queue [] []

theorem findHandlerAux_first {qn : String} :
    ∀ (l1 : List BusListener) (m : BusListener) (l2 : List BusListener) (i : Int),
      (∀ x ∈ l1, x.qualifiedName ≠ qn) → m.qualifiedName = qn →
      findHandlerAux (l1 ++ m :: l2) qn i = i + l1.length := by
  intro l1
  induction l1 with
  | nil =>
    intro m l2 i _ hm
    simp [findHandlerAux, hm]
  | cons x rest ih =>
    intro m l2 i hmiss hm
    have hx : x.qualifiedName ≠ qn := hmiss x (by simp)
    rw [List.cons_append, findHandlerAux, if_neg hx,
      ih m l2 (i + 1) (fun y hy => hmiss y (by simp [hy])) hm]
    simp only [List.length_cons]
    push_cast
    ring

theorem findHandlerAux_none {qn : String} :
    ∀ (ls : List BusListener) (i : Int), (∀ x ∈ ls, x.qualifiedName ≠ qn) →
      findHandlerAux ls qn i = -1 := by
  intro ls
  induction ls with
  | nil => intro i _; rfl
  | cons x rest ih =>
    intro i h
    have hx : x.qualifiedName ≠ qn := h x (by simp)
    rw [findHandlerAux, if_neg hx, ih (i + 1) (fun y hy => h y (by simp [hy]))]

theorem replayTrace_congr (b1 b2 : EventBus) (h : b1.handlers = b2.handlers) :
    ∀ evs, replayTrace b1 evs = replayTrace b2 evs := by
  intro evs
  induction evs with
  | nil => rfl
  | cons e rest ih => simp [replayTrace, h, ih]

/-! The claims. -/

/-- Claim C6: `Split` splits the text on the separator except inside a quoted
span and fails hard when the text ends with a span still open.  Conjuncts:
the two example runs of the claim (the example strings written as explicit
character lists since they contain the quote character), and, in general for
a nonempty quote string, whenever the grouping loop ends in the summarizing
state, `Split` returns `(nil, false)`. -/
theorem claim6_split_quoting :
    Split [quoteCh, 'a', ',', 'b', quoteCh, ',', 'c'] (str ",") [quoteCh] =
      ([[quoteCh, 'a', ',', 'b', quoteCh], ['c']], true) ∧
    Split ['a', ',', 'b', quoteCh] (str ",") [quoteCh] = ([], false) ∧
    (∀ s sep quote : Str, quote ≠ [] →
      (splitLoop sep quote (goSplit s sep)).2.2 = true →
      Split s sep quote = ([], false)) := by
  refine ⟨by decide, by decide, ?_⟩
  intro s sep quote hq hsm
  obtain ⟨h0, h1, hj, hiff⟩ := splitLoop_spec s sep quote hq
  have hne := h1 hsm
  rw [Split]
  rw [if_neg hne]

/-- Witness for C6: a text ending inside an open quoted span makes the loop
end summarizing, and `Split` indeed fails on it. -/
theorem claim6_split_quoting_witness :
    (splitLoop (str ",") [quoteCh] (goSplit ['a', quoteCh] (str ","))).2.2 = true ∧
    Split ['a', quoteCh] (str ",") [quoteCh] = ([], false) :=
  ⟨by decide, claim6_split_quoting.2.2 ['a', quoteCh] (str ",") [quoteCh]
    (by decide) (by decide)⟩

/-- Claim C9 counterexample: with the empty quote string the round trip
fails: `Split "a," "," ""` accepts with tokens `["a"]`, but rejoining gives
`"a"`, not `"a,"` (the trailing empty token has quote count `-1`, flips the
summarizing flag, and is silently dropped because the pending token is
empty). -/
theorem claim9_counterexample :
    (Split (str "a,") (str ",") []).2 = true ∧
    goJoin (Split (str "a,") (str ",") []).1 (str ",") ≠ str "a," := by
  constructor
  · decide
  · decide

/-- Claim C9 (amended): for every NONEMPTY quote string, whenever
`Split s sep quote` accepts, rejoining the returned tokens with `sep`
restores `s` exactly.  (The claim as stated, for every quote string, fails
for the empty quote; see the counterexample.) -/
theorem claim9_split_join_id (s sep quote : Str) (hq : quote ≠ [])
    (hok : (Split s sep quote).2 = true) :
    goJoin (Split s sep quote).1 sep = s := by
  have hinv := splitLoop_spec s sep quote hq
  rcases hL : splitLoop sep quote (goSplit s sep) with ⟨res, st, sm⟩
  rw [hL] at hinv
  obtain ⟨h0, h1, hj, hiff⟩ := hinv
  dsimp only at h0 h1
  rw [Split] at hok ⊢
  rw [hL] at hok ⊢
  by_cases hst : st = []
  · subst hst
    rw [if_pos rfl]
    cases sm with
    | false =>
      have hjr : goJoin res sep = goJoin (goSplit s sep) sep := hj
      rw [goJoin_goSplit] at hjr
      exact hjr
    | true => exact absurd rfl (h1 rfl)
  · rw [if_neg hst] at hok
    exact absurd hok (by decide)

/-- Witness for C9: a concrete accepted split whose rejoin restores the
input. -/
theorem claim9_split_join_id_witness :
    (([quoteCh] : Str) ≠ []) ∧ (Split (str "x,y") (str ",") [quoteCh]).2 = true ∧
    goJoin (Split (str "x,y") (str ",") [quoteCh]).1 (str ",") = str "x,y" :=
  ⟨by decide, by decide,
    claim9_split_join_id (str "x,y") (str ",") [quoteCh] (by decide) (by decide)⟩

/-- Claim C1 counterexample: on the Active bus `busPanicPair` (snapshot:
listener 1 panics, listener 2 is healthy) publishing `evT` invokes only
listener 1; listener 2 is never invoked, and the returned error is the
recovered panic, not a per-handler aggregate entry keyed by (event,
subscription).  This refutes both "every later handler in the same snapshot
is still invoked" and "a runtime fault is caught per-handler". -/
theorem claim1_counterexample :
    (Publish busPanicPair (some evT)).2.2 = [(1, evT)] ∧
    ((2 : Nat), evT) ∉ (Publish busPanicPair (some evT)).2.2 ∧
    (Publish busPanicPair (some evT)).2.1 = some (.recoveredPanic "boom") := by
  refine ⟨by decide, by decide, by decide⟩

/-- Claim C1 (amended): on an Active bus, a handler returning a non-nil
error is recorded in the publish aggregate keyed by (event, listener) while
every other listener of the snapshot still runs: if no listener of the
snapshot panics, all are invoked in order and the call returns the aggregate
(success when it is empty).  A listener that panics, however, aborts the
dispatch: the panic is recovered at the top of `Publish` and returned as an
ordinary error, the listeners after it are not invoked, and the aggregate
collected so far is discarded. -/
theorem claim1_publish_error_aggregation (bus : EventBus) (e : GoEvent)
    (hst : bus.isStarted = true) :
    ((∀ l ∈ handlersAt bus.handlers (qualifiedNameOfEvent e), NoPanic e l) →
      Publish bus (some e) =
        (bus,
          if dispatchAgg e (handlersAt bus.handlers (qualifiedNameOfEvent e)) = []
            then none
            else some (.publishFailure
              (dispatchAgg e (handlersAt bus.handlers (qualifiedNameOfEvent e)))),
          (handlersAt bus.handlers (qualifiedNameOfEvent e)).map (fun l => (l.id, e)))) ∧
    (∀ (pre : List BusListener) (lp : BusListener) (post : List BusListener)
        (pv : PanicVal),
      lookupHandlers bus.handlers (qualifiedNameOfEvent e) = some (pre ++ lp :: post) →
      (∀ l ∈ pre, NoPanic e l) → lp.behavior e = .panics pv →
      Publish bus (some e) =
        (bus, some (recoverPanic pv), (pre ++ [lp]).map (fun l => (l.id, e)))) := by
  constructor
  · exact publish_started_noPanic hst e
  · intro pre lp post pv hl hpre hbp
    rw [Publish, if_neg (by simp [hst]), hl]
    dsimp only
    rw [if_pos (by simp), dispatchList_panic hbp post hpre]

/-- Witness for C1: on `busErrPair` (listener 1 returns the error
`"fail1"`, listener 2 succeeds) both listeners run and the returned error is
the aggregate with the single entry keyed by `(evT, 1)`. -/
theorem claim1_witness :
    busErrPair.isStarted = true ∧
    Publish busErrPair (some evT) =
      (busErrPair, some (.publishFailure [(evT, 1, "fail1")]), [(1, evT), (2, evT)]) := by
  refine ⟨rfl, ?_⟩
  have hnp : ∀ l ∈ handlersAt busErrPair.handlers (qualifiedNameOfEvent evT),
      NoPanic evT l := by
    intro l hl pv
    have hls : handlersAt busErrPair.handlers (qualifiedNameOfEvent evT) = [lErr, lOk2] := rfl
    rw [hls] at hl
    simp only [List.mem_cons, List.not_mem_nil, or_false] at hl
    rcases hl with rfl | rfl <;> simp [lErr, lOk2]
  have h := (claim1_publish_error_aggregation busErrPair evT rfl).1 hnp
  rw [h]
  rfl

/-- Claim C2 counterexample: on the Idle bus `busPanicQueue` (listener 1
panics, listener 2 is healthy, event `evT` queued) the replay performed by
`activate` never delivers `evT` to listener 2, refuting "after `activate()`
every handler subscribed before activation receives E exactly once". -/
theorem claim2_counterexample :
    (activate busPanicQueue).2.2 = [(1, evT)] ∧
    ((2 : Nat), evT) ∉ (activate busPanicQueue).2.2 := by
  refine ⟨by decide, by decide⟩

/-- Claim C2 (amended): publishing on an Idle bus appends the event to the
pending queue and returns success without invoking any handler; and,
PROVIDED no replayed handler invocation panics, after `activate()` every
listener subscribed under a queued event's routing key receives that event
exactly once, the queued events being replayed in publish order (the trace
equals `replayTrace`).  A panicking handler aborts the replay, so the
unrestricted claim fails (see the counterexample). -/
theorem claim2_idle_queue_replay :
    (∀ (bus : EventBus) (e : GoEvent), bus.isStarted = false →
      Publish bus (some e) = ({ bus with queue := bus.queue ++ [e] }, none, [])) ∧
    (∀ bus : EventBus,
      (∀ e ∈ bus.queue, ∀ l ∈ handlersAt bus.handlers (qualifiedNameOfEvent e),
        NoPanic e l) →
      (activate bus).2.2 = replayTrace bus bus.queue) := by
  constructor
  · intro bus e h
    rw [Publish, if_pos h]
  · intro bus hnp
    rw [activate]
    dsimp only
    have ht := activateLoop_trace { bus with isStarted := true } rfl
      bus.queue [] [] hnp
    rw [ht, replayTrace_congr { bus with isStarted := true } bus rfl]
    simp

/-- Witness for C2: on the Idle bus `busTwoQueued` (healthy listeners 1 and
2, events `evT` then `evT2` queued) an idle publish queues without dispatch,
and activation delivers each queued event to each listener once, in order. -/
theorem claim2_witness :
    busTwoQueued.isStarted = false ∧
    Publish busTwoQueued (some evT) =
      ({ busTwoQueued with queue := busTwoQueued.queue ++ [evT] }, none, []) ∧
    (activate busTwoQueued).2.2 = [(1, evT), (2, evT), (1, evT2), (2, evT2)] := by
  refine ⟨rfl, claim2_idle_queue_replay.1 busTwoQueued evT rfl, ?_⟩
  have hnp : ∀ e ∈ busTwoQueued.queue,
      ∀ l ∈ handlersAt busTwoQueued.handlers (qualifiedNameOfEvent e), NoPanic e l := by
    intro e he l hl pv
    have he2 : e = evT ∨ e = evT2 := by
      have hq : busTwoQueued.queue = [evT, evT2] := rfl
      rw [hq] at he
      simpa using he
    have hls : handlersAt busTwoQueued.handlers (qualifiedNameOfEvent e) = [lF1, lOk] := by
      rcases he2 with rfl | rfl <;> rfl
    rw [hls] at hl
    simp only [List.mem_cons, List.not_mem_nil, or_false] at hl
    rcases hl with rfl | rfl <;> simp [lF1, lOk]
  have h := claim2_idle_queue_replay.2 busTwoQueued hnp
  rw [h]
  rfl

/-! Queue-independence and state-preservation lemmas. -/

theorem subscribe_queue_indep (bus : EventBus) (q' : List GoEvent) (h : GoHandler) :
    Subscribe { bus with queue := q' } h =
      ({ (Subscribe bus h).1 with queue := q' }, (Subscribe bus h).2) := by
  cases hnl : newBusListener bus.nextId h with
  | error e =>
    have hnl2 : newBusListener ({ bus with queue := q' } : EventBus).nextId h = .error e := hnl
    simp [Subscribe, hnl, hnl2]
  | ok l =>
    have hnl2 : newBusListener ({ bus with queue := q' } : EventBus).nextId h = .ok l := hnl
    simp [Subscribe, hnl, hnl2]

theorem removeHandler_queue_indep (bus : EventBus) (q' : List GoEvent)
    (etn : String) (idx : Int) :
    removeHandler { bus with queue := q' } etn idx =
      ({ (removeHandler bus etn idx).1 with queue := q' }, (removeHandler bus etn idx).2) := by
  rw [removeHandler, removeHandler]
  by_cases hb : 0 ≤ idx ∧ idx < ((handlersAt bus.handlers etn).length : Int)
  · simp only [hb, if_pos, and_self]
  · simp only [hb, if_neg, not_false_iff]

theorem unsubscribe_queue_indep (bus : EventBus) (q' : List GoEvent) (h : GoHandler) :
    Unsubscribe { bus with queue := q' } h =
      ({ (Unsubscribe bus h).1 with queue := q' }, (Unsubscribe bus h).2) := by
  cases hnl : newBusListener bus.nextId h with
  | error e =>
    have hnl2 : newBusListener ({ bus with queue := q' } : EventBus).nextId h = .error e := hnl
    simp [Unsubscribe, hnl, hnl2]
  | ok l =>
    rw [Unsubscribe, Unsubscribe, hnl]
    dsimp only
    cases hlk : lookupHandlers bus.handlers l.eventTypeName with
    | none => rfl
    | some ls =>
      dsimp only
      by_cases hlen : 0 < ls.length
      · rw [if_pos hlen, if_pos hlen]
        have hfh : findHandler { bus with queue := q' } l.eventTypeName
            (handlerQualifiedName h) =
            findHandler bus l.eventTypeName (handlerQualifiedName h) := rfl
        rw [hfh, removeHandler_queue_indep]
        rcases hrm : removeHandler bus l.eventTypeName
            (findHandler bus l.eventTypeName (handlerQualifiedName h)) with ⟨b1, ok1⟩
        cases ok1 <;> rfl
      · rw [if_neg hlen, if_neg hlen]

theorem publish_queue_indep (bus : EventBus) (q' : List GoEvent)
    (hst : bus.isStarted = true) (ev : Option GoEvent) :
    Publish { bus with queue := q' } ev =
      ({ (Publish bus ev).1 with queue := q' }, (Publish bus ev).2) := by
  cases ev with
  | none => rfl
  | some e =>
    rw [Publish, Publish]
    rw [if_neg (by simp [hst]), if_neg (show ¬ ({ bus with queue := q' } :
      EventBus).isStarted = false by simp [show ({ bus with queue := q' } :
      EventBus).isStarted = bus.isStarted from rfl, hst])]
    have hsame : lookupHandlers ({ bus with queue := q' } : EventBus).handlers
        (qualifiedNameOfEvent e) = lookupHandlers bus.handlers (qualifiedNameOfEvent e) := rfl
    rw [hsame]
    cases hl : lookupHandlers bus.handlers (qualifiedNameOfEvent e) with
    | none => rfl
    | some hs =>
      dsimp only
      by_cases hlen : 0 < hs.length
      · rw [if_pos hlen, if_pos hlen]
        rcases hd : dispatchList e hs with ⟨tr, res⟩
        cases res with
        | panicked pv => rfl
        | completed agg => rfl
      · rw [if_neg hlen, if_neg hlen]

theorem hasHandler_queue_indep (bus : EventBus) (q' : List GoEvent) (v : GoValue) :
    HasHandler { bus with queue := q' } v = HasHandler bus v := rfl

theorem subscribe_state (bus : EventBus) (h : GoHandler) :
    (Subscribe bus h).1.isStarted = bus.isStarted ∧
    (Subscribe bus h).1.queue = bus.queue := by
  cases hnl : newBusListener bus.nextId h with
  | error e => simp [Subscribe, hnl]
  | ok l => simp [Subscribe, hnl]

theorem removeHandler_state (bus : EventBus) (etn : String) (idx : Int) :
    (removeHandler bus etn idx).1.isStarted = bus.isStarted ∧
    (removeHandler bus etn idx).1.queue = bus.queue := by
  rw [removeHandler]
  by_cases hb : 0 ≤ idx ∧ idx < ((handlersAt bus.handlers etn).length : Int)
  · rw [if_pos hb]
    exact ⟨rfl, rfl⟩
  · rw [if_neg hb]
    exact ⟨rfl, rfl⟩

theorem unsubscribe_state (bus : EventBus) (h : GoHandler) :
    (Unsubscribe bus h).1.isStarted = bus.isStarted ∧
    (Unsubscribe bus h).1.queue = bus.queue := by
  cases hnl : newBusListener bus.nextId h with
  | error e => simp [Unsubscribe, hnl]
  | ok l =>
    rw [Unsubscribe, hnl]
    dsimp only
    cases hlk : lookupHandlers bus.handlers l.eventTypeName with
    | none => exact ⟨rfl, rfl⟩
    | some ls =>
      dsimp only
      by_cases hlen : 0 < ls.length
      · rw [if_pos hlen]
        rcases hrm : removeHandler bus l.eventTypeName
            (findHandler bus l.eventTypeName (handlerQualifiedName h)) with ⟨b1, ok1⟩
        have hstate := removeHandler_state bus l.eventTypeName
          (findHandler bus l.eventTypeName (handlerQualifiedName h))
        rw [hrm] at hstate
        cases ok1 <;> exact ⟨hstate.1, hstate.2⟩
      · rw [if_neg hlen]
        exact ⟨rfl, rfl⟩

/-- Claim C3 counterexample: on `busQueueOnly` (Idle, one queued event, no
handlers) the queue after `activate()` still holds the replayed event — the
source never clears it, refuting "the pending event queue is empty after
activate() returns". -/
theorem claim3_counterexample : (activate busQueueOnly).1.queue ≠ [] := by decide

/-- Claim C3 (amended): `activate` leaves the queue exactly as it was (it is
NOT cleared), but the queued events are never consulted again while the bus
stays Active: the result of every bus interface operation on an Active bus
is independent of the queue contents (the queue is passed through
untouched). -/
theorem claim3_queue_retained :
    (∀ bus : EventBus, (activate bus).1.queue = bus.queue) ∧
    (∀ (bus : EventBus) (q' : List GoEvent) (ev : Option GoEvent),
      bus.isStarted = true →
      Publish { bus with queue := q' } ev =
        ({ (Publish bus ev).1 with queue := q' }, (Publish bus ev).2)) ∧
    (∀ (bus : EventBus) (q' : List GoEvent) (v : GoValue),
      HasHandler { bus with queue := q' } v = HasHandler bus v) ∧
    (∀ (bus : EventBus) (q' : List GoEvent) (h : GoHandler),
      Subscribe { bus with queue := q' } h =
        ({ (Subscribe bus h).1 with queue := q' }, (Subscribe bus h).2) ∧
      Unsubscribe { bus with queue := q' } h =
        ({ (Unsubscribe bus h).1 with queue := q' }, (Unsubscribe bus h).2)) := by
  refine ⟨?_, ?_, ?_, ?_⟩
  · intro bus
    rw [activate_state]
  · intro bus q' ev hst
    exact publish_queue_indep bus q' hst ev
  · intro bus q' v
    exact hasHandler_queue_indep bus q' v
  · intro bus q' h
    exact ⟨subscribe_queue_indep bus q' h, unsubscribe_queue_indep bus q' h⟩

/-- Witness for C3: publishing on the Active `busOneSub` with a replaced
queue gives the same error and trace and passes the queue through. -/
theorem claim3_witness :
    Publish { busOneSub with queue := [evT] } (some evT) =
      ({ (Publish busOneSub (some evT)).1 with queue := [evT] },
        (Publish busOneSub (some evT)).2) :=
  claim3_queue_retained.2.1 busOneSub [evT] (some evT) rfl

/-- Claim C7 counterexample: `busOneSub` stores one subscription whose
routing key (derived from the handler argument's type, `p/T`) is populated,
yet `HasHandler` applied to that very handler function returns `false`: the
lookup uses the function's own qualified name `p.f`, not a key derived from
its runtime type.  The claim's equivalence fails at this input. -/
theorem claim7_counterexample :
    ¬ (HasHandler busOneSub vFn = true ↔
        0 < (handlersAt busOneSub.handlers (routingKeyOf vFn)).length) := by
  decide

/-- Claim C7 (amended): `HasHandler x` is true iff at least one subscription
is stored under `QualifiedName(x)` — which for an event value is exactly the
routing key derived from its runtime type, but for a handler function is the
function's symbol name (so handler arguments never find their own
subscription, stored under the argument type's key). -/
theorem claim7_has_handler :
    (∀ (bus : EventBus) (v : GoValue),
      HasHandler bus v = true ↔
        0 < (handlersAt bus.handlers (goValueQualifiedName v)).length) ∧
    (∀ e : GoEvent, routingKeyOf (.ev e) = goValueQualifiedName (.ev e)) := by
  constructor
  · intro bus v
    rw [HasHandler]
    cases hl : lookupHandlers bus.handlers (goValueQualifiedName v) with
    | none => simp [handlersAt, hl]
    | some ls => simp [handlersAt, hl]
  · intro e
    rfl

/-- Claim C8: `Unsubscribe h` removes exactly the first stored subscription
whose qualified identity matches `h`, leaving the relative order of the
remaining subscriptions unchanged, and errors when the event type has no
stored subscriptions (absent key or empty list) or when no stored
subscription matches. -/
theorem claim8_unsubscribe_first_match (bus : EventBus) (h : GoHandler)
    (l : BusListener) (hval : newBusListener bus.nextId h = .ok l) :
    (∀ (l1 : List BusListener) (m : BusListener) (l2 : List BusListener),
      lookupHandlers bus.handlers l.eventTypeName = some (l1 ++ m :: l2) →
      (∀ x ∈ l1, x.qualifiedName ≠ handlerQualifiedName h) →
      m.qualifiedName = handlerQualifiedName h →
      Unsubscribe bus h =
        ({ bus with handlers := setHandlers bus.handlers l.eventTypeName (l1 ++ l2) },
          none)) ∧
    (lookupHandlers bus.handlers l.eventTypeName = none →
      Unsubscribe bus h = (bus, some (.eventTypeNotExist (handlerQualifiedName h)))) ∧
    (lookupHandlers bus.handlers l.eventTypeName = some [] →
      Unsubscribe bus h = (bus, some (.eventTypeNotExist (handlerQualifiedName h)))) ∧
    (∀ ls, lookupHandlers bus.handlers l.eventTypeName = some ls → ls ≠ [] →
      (∀ x ∈ ls, x.qualifiedName ≠ handlerQualifiedName h) →
      Unsubscribe bus h = (bus, some .handlerNotFound)) := by
  refine ⟨?_, ?_, ?_, ?_⟩
  · intro l1 m l2 hlk hmiss hm
    rw [Unsubscribe, hval]
    dsimp only
    rw [hlk]
    dsimp only
    rw [if_pos (by simp)]
    have hfind : findHandler bus l.eventTypeName (handlerQualifiedName h) =
        (l1.length : Int) := by
      rw [findHandler, hlk]
      dsimp only
      rw [findHandlerAux_first l1 m l2 0 hmiss hm]
      simp
    rw [hfind, removeHandler]
    have hAt : handlersAt bus.handlers l.eventTypeName = l1 ++ m :: l2 := by
      simp [handlersAt, hlk]
    rw [hAt]
    have hlen : ((l1.length : Int)) < ((l1 ++ m :: l2).length : Int) := by
      simp only [List.length_append, List.length_cons]
      push_cast
      omega
    rw [if_pos ⟨by positivity, hlen⟩]
    have htoNat : ((l1.length : Int)).toNat = l1.length := Int.toNat_natCast l1.length
    rw [htoNat]
    have htake : (l1 ++ m :: l2).take l1.length = l1 := List.take_left l1 (m :: l2)
    have hdrop : (l1 ++ m :: l2).drop (l1.length + 1) = l2 := by
      rw [List.append_cons]
      rw [show l1.length + 1 = (l1 ++ [m]).length by simp]
      exact List.drop_left (l1 ++ [m]) l2
    rw [htake, hdrop]
  · intro hlk
    rw [Unsubscribe, hval]
    dsimp only
    rw [hlk]
  · intro hlk
    rw [Unsubscribe, hval]
    dsimp only
    rw [hlk]
    dsimp only
    rw [if_neg (by simp)]
  · intro ls hlk hne hmiss
    rw [Unsubscribe, hval]
    dsimp only
    rw [hlk]
    dsimp only
    rw [if_pos (List.length_pos.mpr hne)]
    have hfind : findHandler bus l.eventTypeName (handlerQualifiedName h) = -1 := by
      rw [findHandler, hlk]
      dsimp only
      rw [findHandlerAux_none ls 0 hmiss]
    rw [hfind, removeHandler]
    rw [if_neg (by omega : ¬ ((0 : Int) ≤ -1 ∧
      (-1 : Int) < ((handlersAt bus.handlers l.eventTypeName).length : Int)))]

/-- Witness for C8: on `busThreeSubs` (listeners by the functions `f0`,
`f1`, `f2`) unsubscribing `f1` removes only the middle listener and keeps
`f0` before `f2`. -/
theorem claim8_witness :
    newBusListener busThreeSubs.nextId hF1 = .ok lF1Val ∧
    Unsubscribe busThreeSubs hF1 =
      ({ busThreeSubs with
          handlers := setHandlers busThreeSubs.handlers lF1Val.eventTypeName
            ([lF0] ++ [lF2]) }, none) := by
  refine ⟨rfl, ?_⟩
  exact (claim8_unsubscribe_first_match busThreeSubs hF1 lF1Val rfl).1
    [lF0] lF1 [lF2] rfl
    (by
      intro x hx
      simp only [List.mem_singleton] at hx
      subst hx
      simp [lF0, hF1, handlerQualifiedName])
    (by simp [lF1, hF1, handlerQualifiedName])

/-- Claim C10: `activate` is definitionally "set the started flag, then
replay the queue", so the whole replay (and any nested publish performed by
a handler during it) runs against an Active bus; on an Active bus `Publish`
leaves the state (in particular the queue) unchanged and dispatches
synchronously to the currently stored subscribers; and no bus interface
operation ever resets the started flag. -/
theorem claim10_activation_irreversible :
    (∀ bus : EventBus,
      activate bus = activateLoop { bus with isStarted := true } [] []
        ({ bus with isStarted := true } : EventBus).queue) ∧
    (∀ bus : EventBus, (activate bus).1.isStarted = true) ∧
    (∀ (bus : EventBus) (e : GoEvent), bus.isStarted = true →
      (Publish bus (some e)).1 = bus ∧
      (Publish bus (some e)).2.2 =
        (dispatchList e (handlersAt bus.handlers (qualifiedNameOfEvent e))).1) ∧
    (∀ (bus : EventBus) (ev : Option GoEvent), bus.isStarted = true →
      (Publish bus ev).1.isStarted = true) ∧
    (∀ (bus : EventBus) (h : GoHandler),
      (Subscribe bus h).1.isStarted = bus.isStarted ∧
      (Unsubscribe bus h).1.isStarted = bus.isStarted) := by
  refine ⟨fun bus => rfl, ?_, ?_, ?_, ?_⟩
  · intro bus
    rw [activate_state]
  · intro bus e hst
    refine ⟨publish_started_state hst e, ?_⟩
    rw [Publish, if_neg (by simp [hst])]
    cases hl : lookupHandlers bus.handlers (qualifiedNameOfEvent e) with
    | none => simp [handlersAt, hl, dispatchList]
    | some hs =>
      have hAt : handlersAt bus.handlers (qualifiedNameOfEvent e) = hs := by
        simp [handlersAt, hl]
      rw [hAt]
      dsimp only
      by_cases hlen : 0 < hs.length
      · rw [if_pos hlen]
        rcases hd : dispatchList e hs with ⟨tr, res⟩
        cases res <;> rfl
      · rw [if_neg hlen]
        have : hs = [] := by
          cases hs with
          | nil => rfl
          | cons a b => simp at hlen
        subst this
        rfl
  · intro bus ev hst
    rw [publish_started_keeps hst ev]
    exact hst
  · intro bus h
    exact ⟨(subscribe_state bus h).1, (unsubscribe_state bus h).1⟩

/-- Witness for C10: on the Active `busOneSub`, publishing returns the state
unchanged and dispatches to the stored subscriber. -/
theorem claim10_witness :
    busOneSub.isStarted = true ∧
    (Publish busOneSub (some evT)).1 = busOneSub ∧
    (Publish busOneSub (some evT)).2.2 =
      (dispatchList evT (handlersAt busOneSub.handlers
        (qualifiedNameOfEvent evT))).1 := by
  have h := claim10_activation_irreversible.2.2.1 busOneSub evT rfl
  exact ⟨rfl, h.1, h.2⟩

/-! Lemmas about the resolver. -/

theorem collectLoop_spec (ctx : InjectCtx) (ft detail name : String) :
    ∀ reg : Registry,
      collectLoop ctx ft true detail name reg = .ok (wireMatches ctx ft name reg) := by
  intro reg
  induction reg with
  | nil => rfl
  | cons p rest ih =>
    obtain ⟨t, inner⟩ := p
    cases ha : assocFind inner name with
    | none => simp [collectLoop, wireMatches, List.filterMap_cons, ha, ih]
    | some e =>
      by_cases hb : ctx.assignable (compQualifiedName e.component) ft
      · simp [collectLoop, wireMatches, List.filterMap_cons, ha, hb, ih]
      · simp [collectLoop, wireMatches, List.filterMap_cons, ha, hb, ih]

theorem getConfigScan_keyEmpty : ∀ (l : List Str) (key : Str),
    getConfigScan [] key l = none := by
  intro l
  induction l with
  | nil => intro key; rfl
  | cons a rest ih =>
    intro key
    rw [getConfigScan]
    by_cases hf : isFlagArg a = true
    · rw [if_pos hf]
      exact ih _
    · have hf2 : isFlagArg a = false := by
        cases hb : isFlagArg a
        · rfl
        · exact absurd hb hf
      rw [if_neg (by simp [hf2])]
      by_cases hkey : key ≠ []
      · rw [if_pos hkey, if_neg (fun h => hkey h.symm)]
        exact ih key
      · rw [if_neg hkey]
        exact ih key

theorem specCmdline_keyEmpty : ∀ l : List Str, specCmdlineLookup [] l = none := by
  intro l
  induction l with
  | nil => rfl
  | cons a rest ih =>
    cases rest with
    | nil => rfl
    | cons b r2 =>
      rw [specCmdlineLookup,
        if_neg (by rintro ⟨rfl, h2, -⟩; exact absurd h2 (by decide))]
      exact ih

theorem getConfigScan_spec {K : Str} (hK : K ≠ []) :
    ∀ (l : List Str) (key : Str),
      (key ≠ K → getConfigScan K key l = specCmdlineLookup K l) ∧
      (key = K → getConfigScan K key l = scanContinue K l) := by
  intro l
  induction l with
  | nil => intro key; exact ⟨fun _ => rfl, fun _ => rfl⟩
  | cons a rest ih =>
    intro key
    by_cases hf : isFlagArg a = true
    · obtain ⟨c, t, rfl⟩ : ∃ c t, a = '-' :: '-' :: c :: t := by
        cases a with
        | nil => exact Bool.noConfusion hf
        | cons x a1 =>
          cases a1 with
          | nil => exact Bool.noConfusion hf
          | cons y a2 =>
            cases a2 with
            | nil => exact Bool.noConfusion hf
            | cons z t =>
              have hxy : x = '-' ∧ y = '-' := by
                have hf2 : (x == '-' && y == '-') = true := hf
                simpa using hf2
              exact ⟨z, t, by rw [hxy.1, hxy.2]⟩
      have hstep : ∀ k, getConfigScan K k (('-' :: '-' :: c :: t) :: rest) =
          getConfigScan K (c :: t) rest := by
        intro k
        rw [getConfigScan, if_pos hf]
        rfl
      by_cases heq : c :: t = K
      · have hcont := (ih (c :: t)).2 heq
        have hspec : specCmdlineLookup K (('-' :: '-' :: c :: t) :: rest) =
            scanContinue K rest := by
          cases rest with
          | nil => rfl
          | cons b r2 =>
            rw [specCmdlineLookup]
            by_cases hfb : isFlagArg b = false
            · rw [if_pos ⟨by rw [heq], hf, hfb⟩, scanContinue, if_pos hfb]
            · rw [if_neg (by simp [hfb]), scanContinue, if_neg hfb]
        constructor
        · intro _
          rw [hstep key, hcont, hspec]
        · intro _
          rw [hstep key, hcont, scanContinue, if_neg (by simp [hf]), hspec]
      · have hsc := (ih (c :: t)).1 heq
        have hAne : ('-' :: '-' :: c :: t : Str) ≠ '-' :: '-' :: K := by
          intro h
          apply heq
          have h2 : ('-' :: '-' :: c :: t : Str).drop 2 = ('-' :: '-' :: K : Str).drop 2 := by
            rw [h]
          simpa using h2
        have hspec : specCmdlineLookup K (('-' :: '-' :: c :: t) :: rest) =
            specCmdlineLookup K rest := by
          cases rest with
          | nil => rfl
          | cons b r2 =>
            rw [specCmdlineLookup, if_neg (by simp [hAne])]
        constructor
        · intro _
          rw [hstep key, hsc, hspec]
        · intro _
          rw [hstep key, hsc, scanContinue, if_neg (by simp [hf]), hspec]
    · have hf2 : isFlagArg a = false := by
        cases hb : isFlagArg a
        · rfl
        · exact absurd hb hf
      have hspec : specCmdlineLookup K (a :: rest) = specCmdlineLookup K rest := by
        cases rest with
        | nil => rfl
        | cons b r2 =>
          rw [specCmdlineLookup, if_neg (by simp [hf2])]
      constructor
      · intro hne
        rw [getConfigScan, if_neg (by simp [hf2])]
        by_cases hkey : key ≠ []
        · rw [if_pos hkey, if_neg (fun h => hne h.symm), (ih key).1 hne, hspec]
        · rw [if_neg hkey, (ih key).1 hne, hspec]
      · intro hkk
        subst hkk
        rw [getConfigScan, if_neg (by simp [hf2]), if_pos hK, if_pos rfl,
          scanContinue, if_pos hf2]

theorem getConfig_precedence (ctx : InjectCtx) (K : Str) :
    getConfig ctx K =
      match specCmdlineLookup K ctx.args with
      | some v => some v
      | none => lookupEnv ctx.env K := by
  by_cases hK : K = []
  · subst hK
    rw [getConfig, getConfigScan_keyEmpty, specCmdline_keyEmpty]
  · rw [getConfig, (getConfigScan_spec hK ctx.args []).1 (fun h => hK h.symm)]

theorem processConfigValue_string {field : GoField} (comp : GoComponent)
    (v cfgKey : Str) (p : Bool) (hstr : field.content = .str []) :
    processConfigValue comp field v cfgKey p =
      .ok { field with content := .str v } := by
  have h1 : processConfigString field v = { field with content := .str v } := by
    rw [processConfigString, hstr]
    rfl
  rw [processConfigValue, h1]
  rfl

/-- Claim C4: resolution of a `wire` field against the registry is decided
by the match count — the registry entries registered under the target name
whose component type is assignable to the field type: zero matches is a
"dependency not found" error; two or more is an "ambiguous/multiple
dependencies" error; exactly one match whose entry is no longer Created is
assigned directly; exactly one match whose entry is still Created is
recursively resolved first, the recursion's error propagating (and nothing
being assigned), before its instance is assigned into the field. -/
theorem claim4_wire_match_count (ctx : InjectCtx) (fuel : Nat) (reg : Registry)
    (comp : GoComponent) (field : GoField) (regEntryName : String)
    (href : isRefField field = true) (hset : field.canSet = true) :
    (wireMatches ctx field.typeName regEntryName reg = [] →
      processWiring ctx (fuel + 1) reg comp field regEntryName =
        (reg, .error (.dependencyNotFound (wireDetail regEntryName comp field)))) ∧
    (2 ≤ (wireMatches ctx field.typeName regEntryName reg).length →
      processWiring ctx (fuel + 1) reg comp field regEntryName =
        (reg, .error (.multipleDependencies (wireDetail regEntryName comp field)))) ∧
    (∀ c e, wireMatches ctx field.typeName regEntryName reg = [c] →
      regLookup reg (compQualifiedName c, regEntryName) = some e →
      e.state ≠ CState.Created →
      processWiring ctx (fuel + 1) reg comp field regEntryName =
        (reg, .ok ((compQualifiedName c, regEntryName), []))) ∧
    (∀ c e, wireMatches ctx field.typeName regEntryName reg = [c] →
      regLookup reg (compQualifiedName c, regEntryName) = some e →
      e.state = CState.Created →
      processWiring ctx (fuel + 1) reg comp field regEntryName =
        (match resolveDependency ctx fuel (compQualifiedName c, regEntryName) reg with
         | (reg1, .error err) => (reg1, .error err)
         | (reg1, .ok ents) =>
           (reg1, .ok ((compQualifiedName c, regEntryName), ents)))) := by
  have hcol : collectLoop ctx field.typeName field.canSet
      (fieldDetail comp field) regEntryName reg =
      .ok (wireMatches ctx field.typeName regEntryName reg) := by
    rw [hset]
    exact collectLoop_spec ctx field.typeName (fieldDetail comp field) regEntryName reg
  refine ⟨?_, ?_, ?_, ?_⟩
  · intro hw
    rw [processWiring, if_neg (by simp [href]), hcol, hw]
  · intro hw
    rcases hm : wireMatches ctx field.typeName regEntryName reg with _ | ⟨c1, _ | ⟨c2, ms⟩⟩
    · rw [hm] at hw
      simp at hw
    · rw [hm] at hw
      simp at hw
    · rw [processWiring, if_neg (by simp [href]), hcol, hm]
  · intro c e hw hlk hstate
    rw [processWiring, if_neg (by simp [href]), hcol, hw]
    dsimp only
    rw [hlk]
    dsimp only
    rw [if_neg hstate]
  · intro c e hw hlk hstate
    rw [processWiring, if_neg (by simp [href]), hcol, hw]
    dsimp only
    rw [hlk]
    dsimp only
    rw [if_pos hstate]

/-- Witness for C4: on `regOneB` the wire field `fieldDep` of `compA` has
exactly one match (`compB`, still Created), so `processWiring` first
resolves `p/B` recursively — which initialises it — and then reports the
assignment of the `("p/B", "default")` instance. -/
theorem claim4_witness :
    wireMatches ctxWire fieldDep.typeName "default" regOneB = [compB] ∧
    regLookup regOneB (compQualifiedName compB, "default") = some entryB ∧
    entryB.state = CState.Created ∧
    processWiring ctxWire 4 regOneB compA fieldDep "default" =
      (match resolveDependency ctxWire 3 (compQualifiedName compB, "default") regOneB with
       | (reg1, .error err) => (reg1, .error err)
       | (reg1, .ok ents) =>
         (reg1, .ok ((compQualifiedName compB, "default"), ents))) := by
  refine ⟨by decide, by decide, rfl, ?_⟩
  exact (claim4_wire_match_count ctxWire 3 regOneB compA fieldDep "default"
    rfl rfl).2.2.2 compB entryB (by decide) (by decide) rfl

/-- Claim C5: the value source precedence of a `config` lookup with key `K`
is the first consecutive argv pair `--K value` (the value entry not itself a
flag), else the environment variable `K`, else the tag's default option;
when no source yields a value and there is no default, resolution returns a
hard error if and only if the `panic` option is set, and with `panic` unset
the field is left unchanged.  Stated for a settable string field at its zero
value, the shape the claim's lookup populates. -/
theorem claim5_config_precedence (ctx : InjectCtx) (comp : GoComponent)
    (field : GoField) (ptag : GoTag) (K : Str)
    (hkey : optLookup ptag.options (str "key") = some K) (hK : 0 < K.length)
    (hset : field.canSet = true) (hstr : field.content = .str []) :
    (getConfig ctx K =
      match specCmdlineLookup K ctx.args with
      | some v => some v
      | none => lookupEnv ctx.env K) ∧
    (∀ v, (match getConfig ctx K with
           | some w => some w
           | none => optLookup ptag.options (str "default")) = some v →
      processConfiguration ctx comp field ptag =
        .ok { field with content := .str v }) ∧
    ((match getConfig ctx K with
      | some w => some w
      | none => optLookup ptag.options (str "default")) = none →
      (hasOpt ptag (str "panic") = true →
        processConfiguration ctx comp field ptag =
          .error (.configLoadFailed K (fieldDetail comp field))) ∧
      (hasOpt ptag (str "panic") = false →
        processConfiguration ctx comp field ptag = .ok field)) := by
  have hHasKey : hasOpt ptag (str "key") = true := by
    rw [hasOpt, hkey]
    rfl
  have hGetD : (optLookup ptag.options (str "key")).getD [] = K := by
    rw [hkey]
    rfl
  refine ⟨getConfig_precedence ctx K, ?_, ?_⟩
  · intro v hv
    rw [processConfiguration]
    dsimp only
    rw [if_pos hHasKey, hGetD, if_pos hK]
    cases hg : getConfig ctx K with
    | some w =>
      rw [hg] at hv
      dsimp only at hv
      dsimp only
      rw [if_pos hset]
      obtain rfl : w = v := by
        injection hv
      exact processConfigValue_string comp w K _ hstr
    | none =>
      rw [hg] at hv
      dsimp only at hv
      dsimp only
      have hdef : hasOpt ptag (str "default") = true := by
        rw [hasOpt, hv]
        rfl
      rw [if_pos hdef, if_pos hset]
      have hval : (optLookup ptag.options (str "default")).getD [] = v := by
        rw [hv]
        rfl
      rw [hval]
      exact processConfigValue_string comp v K _ hstr
  · intro hnone
    cases hg : getConfig ctx K with
    | some w =>
      rw [hg] at hnone
      dsimp only at hnone
      cases hnone
    | none =>
      rw [hg] at hnone
      dsimp only at hnone
      have hdef : hasOpt ptag (str "default") = false := by
        rw [hasOpt, hnone]
        rfl
      constructor
      · intro hp
        rw [processConfiguration]
        dsimp only
        rw [if_pos hHasKey, hGetD, if_pos hK, hg]
        dsimp only
        rw [if_neg (by simp [hdef]), if_pos hp]
      · intro hp
        rw [processConfiguration]
        dsimp only
        rw [if_pos hHasKey, hGetD, if_pos hK, hg]
        dsimp only
        rw [if_neg (by simp [hdef]), if_neg (by simp [hp])]

/-- Witness for C5: with argv `--PORT 99` and environment `PORT=7`, the
command line wins and the string field is set to `"99"`. -/
theorem claim5_witness :
    optLookup tagPort.options (str "key") = some (str "PORT") ∧
    (match getConfig ctxConfig (str "PORT") with
     | some w => some w
     | none => optLookup tagPort.options (str "default")) = some (str "99") ∧
    processConfiguration ctxConfig compCfg fieldPort tagPort =
      .ok { fieldPort with content := .str (str "99") } := by
  refine ⟨by decide, by decide, ?_⟩
  exact (claim5_config_precedence ctxConfig compCfg fieldPort tagPort (str "PORT")
    (by decide) (by decide) rfl rfl).2.1 (str "99") (by decide)

end Boot
